import Mathlib

/-!
# Govinda_Prasad: the CV page script `app.js`

A shallow embedding of the data-normalisation and rendering layer of
`src/app.js`, followed by theorems about it.

* JavaScript values that the script can meet are the type `JSValue`.
* JavaScript strings are lists of characters (`JSString`).
* DOM nodes built by the script are the type `Node`; a container that a
  renderer writes into is an `Element` of the live document.
* An operation that can throw a `TypeError` while it builds detached nodes
  returns `Option`; `none` is the throw.
* Code that writes to the live document returns an `Outcome`: what it had
  written when it ended, and whether it ran to its end or threw part-way.
-/

namespace AppJs

/-- A JavaScript string, as the list of its characters. -/
abbrev JSString := List Char

/-- A number value, given by the two things the script observes of a number:
whether it is falsy (`0`, `-0`, `NaN`) and the text `String(n)` gives for it. -/
structure JSNumber where
  falsy : Bool
  text : JSString
  deriving Inhabited

/-- The number that is the length `n` of an array or a string, or the declared
length of a function; such a number is an integer below 2^53, which `String`
prints as its decimal digits. -/
def JSNumber.ofLength (n : Nat) : JSNumber :=
  ⟨n == 0, (toString n).toList⟩

/-- The number `0`. -/
def JSNumber.zero : JSNumber := ⟨true, "0".toList⟩

/-- The number `1`. -/
def JSNumber.one : JSNumber := ⟨false, "1".toList⟩

/-- JavaScript values met by the script.  A number is a `JSNumber`; an object
is the list of its own properties, the binding that is in force for a key
standing first; a function carries its `name`, its `length` and its source
text. -/
inductive JSValue where
  | undefined
  | null
  | bool (b : Bool)
  | num (n : JSNumber)
  | str (s : JSString)
  | arr (xs : List JSValue)
  | obj (fields : List (String × JSValue))
  | func (name : JSString) (arity : Nat) (src : JSString)
  deriving Inhabited

namespace JSValue

/-- JavaScript truthiness (`Boolean(v)`, `!v`, `a || b`). -/
def truthy : JSValue → Bool
  | undefined => false
  | null => false
  | bool b => b
  | num n => !n.falsy
  | str s => !s.isEmpty
  | arr _ => true
  | obj _ => true
  | func _ _ _ => true

/-- `Array.isArray(v)`. -/
def isArray : JSValue → Bool
  | arr _ => true
  | _ => false

/-- `typeof v === "string"`. -/
def isString : JSValue → Bool
  | str _ => true
  | _ => false

/-- `typeof v === "function"`. -/
def isFunction : JSValue → Bool
  | func _ _ _ => true
  | _ => false

/-- `a || b`. -/
def or (a b : JSValue) : JSValue := if a.truthy then a else b

end JSValue


/-- Own-property lookup in an object's property list. -/
def lookupField (k : String) : List (String × JSValue) → JSValue
  | [] => .undefined
  | (k', v) :: rest => if k' = k then v else lookupField k rest

/-- The `length` of a string: its number of UTF-16 code units. -/
def utf16Length (s : JSString) : Nat :=
  (s.map (fun c => if c.toNat < 0x10000 then 1 else 2)).sum

/-- Property read `v.k` for the property names the script reads.  Reading a
property of `null` or `undefined` throws.  Arrays and strings have `length`;
arrays inherit the method `flat`; functions have `name` and `length`. -/
def getProp (v : JSValue) (k : String) : Option JSValue :=
  match v with
  | .undefined => none
  | .null => none
  | .bool _ => some .undefined
  | .num _ => some .undefined
  | .str s => some (if k = "length" then .num (.ofLength (utf16Length s)) else .undefined)
  | .arr xs =>
      some (if k = "length" then .num (.ofLength xs.length)
            else if k = "flat" then .func "flat".toList 0 "function flat() \x7b [native code] \x7d".toList
            else .undefined)
  | .obj fields => some (lookupField k fields)
  | .func name arity _ =>
      some (if k = "length" then .num (.ofLength arity) else if k = "name" then .str name else .undefined)

/-! ## String helpers -/

/-- Code points that `String.prototype.trim` removes: the ECMAScript
WhiteSpace and LineTerminator productions. -/
def isJSWhitespace (c : Char) : Bool :=
  let n := c.toNat
  n == 0x9 || n == 0xA || n == 0xB || n == 0xC || n == 0xD || n == 0x20 || n == 0xA0
    || n == 0x1680 || (0x2000 ≤ n && n ≤ 0x200A) || n == 0x2028 || n == 0x2029
    || n == 0x202F || n == 0x205F || n == 0x3000 || n == 0xFEFF

/-- `s.trim()`. -/
def trim (s : JSString) : JSString :=
  ((s.dropWhile isJSWhitespace).reverse.dropWhile isJSWhitespace).reverse

/-- `s.split(c)` for a one-character separator `c`. -/
def splitOn (c : Char) : JSString → List JSString
  | [] => [[]]
  | x :: xs =>
      if x = c then [] :: splitOn c xs
      else
        match splitOn c xs with
        | [] => [[x]]
        | seg :: rest => (x :: seg) :: rest

/-- Whether `p` is an initial segment of `s`. -/
def startsWith : JSString → JSString → Bool
  | [], _ => true
  | _ :: _, [] => false
  | a :: p, b :: s => a == b && startsWith p s

/-- `s.includes(sub)` on strings. -/
def includes (s sub : JSString) : Bool :=
  match s with
  | [] => sub.isEmpty
  | x :: xs => startsWith sub (x :: xs) || includes xs sub

/-- `parts.join(sep)` on a list of strings. -/
def joinWith (sep : JSString) : List JSString → JSString
  | [] => []
  | [s] => s
  | s :: t :: rest => s ++ sep ++ joinWith sep (t :: rest)

/-- Whether an object has an own property with the given key. -/
def hasOwn (k : String) (fields : List (String × JSValue)) : Bool :=
  fields.any (fun p => p.1 == k)

mutual
/-- `String(v)`, the ToString conversion, which template literals, `+` with a
string, `setAttribute`, `className`, `innerHTML` and `textContent` apply as
well; `none` is the `TypeError` it throws.  An array converts by
`join(",")`.  An object without an own `toString` inherits the one that gives
`[object Object]`; an own `toString` that is not callable leaves only
`valueOf`, which never gives a primitive, so the conversion throws.  (Parsed
JSON holds no function; an object that holds one under `toString` is beyond
what the script receives and is given as a throw too.) -/
def toStr : JSValue → Option JSString
  | .undefined => some "undefined".toList
  | .null => some "null".toList
  | .bool true => some "true".toList
  | .bool false => some "false".toList
  | .num n => some n.text
  | .str s => some s
  | .arr xs => joinElems ",".toList xs
  | .obj fields => if hasOwn "toString" fields then none else some "[object Object]".toList
  | .func _ _ src => some src
/-- `xs.join(sep)` on an array of values: `null` and `undefined` give the
empty string, every other element its `String` conversion. -/
def joinElems (sep : JSString) : List JSValue → Option JSString
  | [] => some []
  | [x] => elemStr x
  | x :: y :: rest =>
      match elemStr x, joinElems sep (y :: rest) with
      | some a, some b => some (a ++ sep ++ b)
      | _, _ => none
/-- The text one array element contributes to `join`. -/
def elemStr : JSValue → Option JSString
  | .undefined => some []
  | .null => some []
  | .bool true => some "true".toList
  | .bool false => some "false".toList
  | .num n => some n.text
  | .str s => some s
  | .arr xs => joinElems ",".toList xs
  | .obj fields => if hasOwn "toString" fields then none else some "[object Object]".toList
  | .func _ _ src => some src
end

/-! ## `normalizeTechSkills` and `asArray` -/

/-- Source: `normalizeTechSkills` (app.js 7-35).  The array that is returned is
given by the list of its elements. -/
def normalizeTechSkills (technicalSkills : JSValue) : List JSValue :=
  if !technicalSkills.truthy then []
  else
    match technicalSkills with
    | .arr xs => xs
    | .str s => (((splitOn ',' s).map trim).filter (fun t => (JSValue.str t).truthy)).map .str
    | .obj fields =>
        match lookupField "flat" fields with
        | .arr xs => xs
        | _ =>
          match lookupField "skills" fields with
          | .arr xs => xs
          | _ =>
            match lookupField "items" fields with
            | .arr xs => xs
            | _ => []
    | _ => []

/-- Source: `asArray` (app.js 48-51). -/
def asArray (v : JSValue) : List JSValue :=
  if !v.truthy then []
  else
    match v with
    | .arr xs => xs
    | _ => [v]

/-! ## The DOM builder `el` -/

/-- DOM nodes built by the script.  `raw` stands for the nodes that the host
parses out of a markup string assigned to `innerHTML`. -/
inductive Node where
  | text (s : JSString)
  | raw (html : JSString)
  | elem (tag : String) (attrs : List (String × JSString)) (children : List Node)
  deriving Inhabited

/-- One entry of the `children` array given to `el`: a JavaScript value or a
node built before. -/
inductive Child where
  | val (v : JSValue)
  | node (n : Node)

/-- What `n.appendChild(...)` receives for a child (app.js 44): a string
becomes a text node, a node is taken as it is, and any other value makes
`appendChild` throw. -/
def Child.toNode : Child → Option Node
  | .val (.str s) => some (.text s)
  | .val _ => none
  | .node n => some n

/-- The children of `el`, converted in order; the first failure throws. -/
def childNodes : List Child → Option (List Node)
  | [] => some []
  | c :: cs =>
      match c.toNode with
      | none => none
      | some n =>
          match childNodes cs with
          | none => none
          | some ns => some (n :: ns)

/-- The attribute loop of `el` (app.js 39-43): `class` sets the class name,
`html` replaces the content by parsed markup, any other key is
`setAttribute`; each converts the value to a string, which may throw.  The
state is the attribute list and the content so far. -/
def applyAttrs : List (String × JSValue) → List (String × JSString) × List Node
    → Option (List (String × JSString) × List Node)
  | [], st => some st
  | (k, v) :: rest, (as, inner) =>
      match toStr v with
      | none => none
      | some t =>
          if k = "class" then applyAttrs rest (as ++ [("class", t)], inner)
          else if k = "html" then applyAttrs rest (as, [Node.raw t])
          else applyAttrs rest (as ++ [(k, t)], inner)

/-- Source: `el` (app.js 37-46). -/
def el (tag : String) (attrs : List (String × JSValue)) (children : List Child) : Option Node :=
  match applyAttrs attrs ([], []), childNodes children with
  | some st, some kids => some (.elem tag st.1 (st.2 ++ kids))
  | _, _ => none

/-- `parent.appendChild(child)` on a node under construction. -/
def Node.appendChild : Node → Node → Node
  | .elem tag attrs children, c => .elem tag attrs (children ++ [c])
  | n, _ => n

/-- An element of the live document that the script writes to: its inline
`display` style and its child nodes. -/
structure Element where
  display : JSString
  children : List Node

/-- How a piece of code that writes to the document ends: it runs to its end
(`done`) or a `TypeError` is thrown part-way (`threw`); either way the value
is what had been written by then. -/
inductive Outcome (α : Type) where
  | done (a : α)
  | threw (a : α)

/-- The value written, however the code ended. -/
def Outcome.value {α : Type} : Outcome α → α
  | .done a => a
  | .threw a => a

/-- Whether the code ran to its end. -/
def Outcome.completed {α : Type} : Outcome α → Bool
  | .done _ => true
  | .threw _ => false

/-- `xs.forEach(x => ... container.appendChild(node) ...)` on a child list: the
body gives the node to append, gives nothing to append, or throws (`none`),
which ends the loop with the children appended so far. -/
def appendEach {α : Type} (body : α → Option (Option Node)) :
    List α → List Node → Outcome (List Node)
  | [], acc => .done acc
  | x :: xs, acc =>
      match body x with
      | none => .threw acc
      | some none => appendEach body xs acc
      | some (some n) => appendEach body xs (acc ++ [n])

/-- The same loop over nodes under construction, where a throw leaves nothing
behind. -/
def buildEach {α : Type} (body : α → Option (Option Node)) (xs : List α) : Option (List Node) :=
  match appendEach body xs [] with
  | .done ns => some ns
  | .threw _ => none

/-- A renderer: the container is emptied (`innerHTML = ""`) and the loop
appends to it. -/
def fillContainer {α : Type} (container : Element) (body : α → Option (Option Node))
    (xs : List α) : Outcome Element :=
  match appendEach body xs [] with
  | .done ns => .done { container with children := ns }
  | .threw ns => .threw { container with children := ns }

/-! ## Renderers -/

/-- Source: `renderSkillsGrid` (app.js 53-58). -/
def renderSkillsGrid (container : Element) (items : JSValue) : Outcome Element :=
  fillContainer container
    (fun s => (toStr s).bind fun t =>
      (el "div" [("class", .str "skill-box".toList)] [.val (.str t)]).map some)
    ((asArray items).filter JSValue.truthy)

/-- Source: `createList` (app.js 149-153); `items.forEach` throws when `items`
is not an array. -/
def createList (items : JSValue) : Option Node :=
  match items with
  | .arr xs =>
      (el "ul" [] []).bind fun ul =>
      (buildEach (fun item => (el "li" [] [.val item]).map some) xs).bind fun lis =>
      some (lis.foldl Node.appendChild ul)
  | _ => none

/-- The call `v.includes(sub)` with a string argument: substring test on a
string, membership test on an array, and a throw on every value that has no
callable `includes`. -/
def valueIncludes (v : JSValue) (sub : JSString) : Option Bool :=
  match v with
  | .str s => some (includes s sub)
  | .arr xs => some (xs.any (fun x => match x with | .str t => t == sub | _ => false))
  | _ => none

/-- Source: `getCompanyLogo` (app.js 165-170); the result is a path or `null`. -/
def getCompanyLogo (company : JSValue) : Option JSValue :=
  match valueIncludes company "Egmont".toList with
  | none => none
  | some true => some (.str "./egmont.png".toList)
  | some false =>
    match valueIncludes company "SAS".toList with
    | none => none
    | some true => some (.str "./SAS.png".toList)
    | some false =>
      match valueIncludes company "Army".toList with
      | none => none
      | some true => some (.str "./army.jpeg".toList)
      | some false => some .null

/-- The part of the loop body of `renderExperienceCards` that fills the
content block after the title and meta elements (app.js 201-208): the nodes
appended to `contentDiv`. -/
def jobBody (job : JSValue) : Option (List Node) :=
  (getProp job "highlights").bind fun hl =>
  (getProp job "description").bind fun description =>
  if ((asArray hl).filter JSValue.truthy).length ≠ 0 then
    (el "ul" [] []).bind fun ul =>
    (buildEach (fun h => (el "li" [] [.val h]).map some)
      ((asArray hl).filter JSValue.truthy)).bind fun lis =>
    some [lis.foldl Node.appendChild ul]
  else if description.truthy then
    (el "p" [] [.val description]).bind fun p => some [p]
  else some []

/-- The logo block of a job card (app.js 179, 184-189): the nodes appended to
the card before the content block. -/
def jobLogoNodes (company : JSValue) : Option (List Node) :=
  (getCompanyLogo company).bind fun logo =>
    if logo.truthy then
      (el "img" [("src", logo), ("alt", company)] []).bind fun img =>
      (el "div" [("class", .str "job-logo".toList)] [.node img]).bind fun logoDiv =>
      some [logoDiv]
    else some []

/-- The content block as `el` first builds it (app.js 192-199): the title
element and the meta element. -/
def jobContentDiv (title company location dates : JSValue) : Option Node :=
  (el "div" [("class", .str "job-title".toList)] [.val title]).bind fun titleDiv =>
  (el "span" [] [.val company]).bind fun companySpan =>
  (el "span" [] [.val location]).bind fun locationSpan =>
  (el "span" [] [.val dates]).bind fun datesSpan =>
  (el "div" [("class", .str "job-meta".toList)]
    [.node companySpan, .node locationSpan, .node datesSpan]).bind fun metaDiv =>
  el "div" [("class", .str "job-content".toList)] [.node titleDiv, .node metaDiv]

/-- The `title` of a job (app.js 175). -/
def jobTitle (job : JSValue) : Option JSValue :=
  (getProp job "title").bind fun t => (getProp job "role").bind fun r =>
  some ((t.or r).or (.str []))

/-- The `company` of a job (app.js 176). -/
def jobCompany (job : JSValue) : Option JSValue :=
  (getProp job "company").bind fun c => some (c.or (.str []))

/-- The `location` of a job (app.js 177). -/
def jobLocation (job : JSValue) : Option JSValue :=
  (getProp job "location").bind fun l => some (l.or (.str []))

/-- The `dates` of a job (app.js 178). -/
def jobDates (job : JSValue) : Option JSValue :=
  (getProp job "dates").bind fun d =>
  (getProp job "startDate").bind fun sd =>
  (getProp job "endDate").bind fun ed =>
  if d.truthy then some d
  else (joinElems " – ".toList ([sd, ed].filter JSValue.truthy)).bind fun joined =>
    some (.str joined)

/-- The loop body of `renderExperienceCards` (app.js 175-211): the job card
appended to the container. -/
def jobCard (job : JSValue) : Option Node :=
  (jobTitle job).bind fun title =>
  (jobCompany job).bind fun company =>
  (jobLocation job).bind fun location =>
  (jobDates job).bind fun dates =>
  (el "div" [("class", .str "job-card".toList)] []).bind fun jobNode =>
  (jobLogoNodes company).bind fun logoNodes =>
  (jobContentDiv title company location dates).bind fun contentDiv =>
  (jobBody job).bind fun body =>
  some ((logoNodes.foldl Node.appendChild jobNode).appendChild
    (body.foldl Node.appendChild contentDiv))

/-- Source: `renderExperienceCards` (app.js 172-213). -/
def renderExperienceCards (container : Element) (experience : JSValue) : Outcome Element :=
  fillContainer container (fun job => (jobCard job).map some) (asArray experience)

/-- The inner loop of `renderTechSkillsWithCategories` (app.js 280-285): the
boxes appended to the sub-grid for the item list `items`. -/
def subBoxes (items : JSString) : Option (List Node) :=
  buildEach
    (fun item =>
      if (JSValue.str (trim item)).truthy then
        (el "div" [("class", .str "skill-box".toList)] [.val (.str (trim item))]).map some
      else some none)
    (splitOn ',' items)

/-- The category group of `renderTechSkillsWithCategories` (app.js 276-286)
for a label and an item list. -/
def categoryGroup (category items : JSString) : Option Node :=
  (el "h3" [("class", .str "skill-category".toList)] [.val (.str category)]).bind fun heading =>
  (el "div" [("class", .str "skill-category-group".toList)] [.node heading]).bind fun group =>
  (el "div" [("class", .str "skills-sub-grid".toList)] []).bind fun skillsWrapper =>
  (subBoxes items).bind fun boxes =>
  some (group.appendChild (boxes.foldl Node.appendChild skillsWrapper))

/-- The loop body of `renderTechSkillsWithCategories` (app.js 273-290): the
node appended for one skill.  The destructuring `[category, items]` takes the
first two segments; a missing second segment would make `items.split` throw. -/
def skillNode (skill : JSValue) : Option Node :=
  (toStr skill).bind fun skillStr =>
  if includes skillStr ":".toList then
    match (splitOn ':' skillStr).map trim with
    | category :: items :: _ => categoryGroup category items
    | _ => none
  else el "div" [("class", .str "skill-box".toList)] [.val (.str skillStr)]

/-- Source: `renderTechSkillsWithCategories` (app.js 270-292). -/
def renderTechSkillsWithCategories (container : Element) (skills : JSValue) : Outcome Element :=
  fillContainer container (fun skill => (skillNode skill).map some) (asArray skills)

/-- Source: `CERT_MEDIA` (app.js 229-236). -/
def CERT_MEDIA : List JSValue :=
  [ .obj [("name", .str "Microsoft AI-900".toList),
          ("file", .str "Certification/Microsoft AI-900.jpg".toList),
          ("type", .str "image".toList)],
    .obj [("name", .str "Microsoft Azure Data Fundamentals".toList),
          ("file", .str "Certification/Microsoft Azure data fundamentals.jpg".toList),
          ("type", .str "image".toList)],
    .obj [("name", .str "Power BI Data Analyst Associate".toList),
          ("file", .str "Certification/Power bi data analyst associate.jpg".toList),
          ("type", .str "image".toList)],
    .obj [("name", .str "PRINCE2 Certification".toList),
          ("file", .str "Certification/PRINCE2 certification.png".toList),
          ("type", .str "image".toList)],
    .obj [("name", .str "Certified Scrum Master".toList),
          ("file", .str "Certification/Certified Scrum Master.png".toList),
          ("type", .str "image".toList)],
    .obj [("name", .str "Certified Product Owner".toList),
          ("file", .str "Certification/Certified Product Owner.png".toList),
          ("type", .str "image".toList)] ]

/-- `v === s` for a string `s`. -/
def strictEqStr (v : JSValue) (s : JSString) : Bool :=
  match v with
  | .str t => t == s
  | _ => false

/-- The loop body of the later `renderCertifications` (app.js 242-250). -/
def certSection (media : JSValue) : Option (Option Node) :=
  (getProp media "type").bind fun type =>
  if strictEqStr type "image".toList then
    (getProp media "name").bind fun name =>
    (getProp media "file").bind fun file =>
    (el "h3" [("class", .str "cert-name".toList)] [.val name]).bind fun heading =>
    (toStr file).bind fun fileText =>
    (el "img" [("src", .str ("./".toList ++ fileText)), ("alt", name),
      ("class", .str "cert-full-image".toList)] []).bind fun img =>
    (el "div" [("class", .str "cert-display".toList)] [.node heading, .node img]).bind fun sect =>
    some (some sect)
  else some none

/-- Source: `renderCertifications` (app.js 238-251), the later of the two
function declarations of that name and so the one bound to the name when the
script runs.  The argument `certs` is not read. -/
def renderCertifications (container : Element) (_certs : JSValue) : Outcome Element :=
  fillContainer container certSection CERT_MEDIA

/-- Source: `eduEntries` (app.js 72-99). -/
def eduEntries : List JSValue :=
  [ .obj [("institution", .str "Copenhagen Business School".toList),
          ("degree", .str "Master of Business Administration (MBA), Finance, General".toList),
          ("dates", .str "Oct 2020 – Sep 2021".toList),
          ("grade", .null),
          ("description", .str "Copenhagen Business School is a triple-accredited full-time MBA, ranked #24 globally by QS Top MBA (2021). The class consists of 43 talented and ambitious individuals from 19 nationalities.".toList),
          ("activities", .arr [
            .str "Leadership development program (LDP)".toList,
            .str "Integrated strategy project (ISP)".toList,
            .str "Entrepreneurial Reverse A-board".toList]),
          ("areasOfStudy", .arr [
            .str "Leadership development process".toList,
            .str "Analytics and Big Data".toList,
            .str "Financial and Management Accounting".toList,
            .str "Human Resources Management".toList,
            .str "Change Management".toList,
            .str "Sustainable Business Practices".toList,
            .str "Strategic Management".toList,
            .str "Corporate Finance".toList]),
          ("image", .str "cbs.png".toList)],
    .obj [("institution", .str "Savitribai Phule Pune University".toList),
          ("degree", .str "Bachelor of Engineering (B.E.), Mechanical Engineering".toList),
          ("dates", .str "Jun 2005 – Jul 2009".toList),
          ("grade", .str "First class (Among top 10% of class)".toList),
          ("activities", .arr [
            .str "Mechanical engineering student association (MESA)".toList,
            .str "College Campus student committee".toList,
            .str "Firodiya".toList]),
          ("highlights", .arr [
            .str "Graduated in First Class, B.E in Mechanical Engineering".toList,
            .str "Campus Placement Representative, 2008–2009".toList,
            .str "Head, College cultural head for two consecutive years, 2007–2009".toList,
            .str "Research Project on a hydraulic system".toList,
            .str "Won first prize for paper presentation on space elevator".toList,
            .str "Founding member of the College Firodiya community (prestigious Marathi drama competition)".toList]),
          ("image", .str "pune.png".toList)] ]

/-- The header of an education card (app.js 102-110): the children of the
`edu-header` element. -/
def eduHeaderContent (edu : JSValue) : Option (List Child) :=
  (getProp edu "institution").bind fun institution =>
  (getProp edu "degree").bind fun degree =>
  (getProp edu "dates").bind fun dates =>
  (getProp edu "image").bind fun image =>
  (el "h3" [] [.val institution]).bind fun h3 =>
  (el "p" [("class", .str "edu-degree".toList)] [.val degree]).bind fun pDegree =>
  (el "p" [("class", .str "edu-dates".toList)] [.val dates]).bind fun pDates =>
  if image.truthy then
    (toStr image).bind fun imageText =>
    (el "img" [("src", .str ("./".toList ++ imageText)), ("alt", institution),
      ("class", .str "edu-image".toList)] []).bind fun img =>
    some [.node h3, .node pDegree, .node pDates, .node img]
  else some [.node h3, .node pDegree, .node pDates]

/-- One optional paragraph of an education card (app.js 116-122): nothing
when `value` is falsy. -/
def eduParagraph (cls : String) (lead : JSString) (value : JSValue) : Option (List Node) :=
  if value.truthy then
    (toStr value).bind fun text =>
    (el "p" [("class", .str cls.toList)] [.val (.str (lead ++ text))]).bind fun p => some [p]
  else some []

/-- One optional list section of an education card (app.js 124-143): nothing
unless `items && items.length` is truthy. -/
def eduSection (heading : JSString) (items : JSValue) : Option (List Node) :=
  if items.truthy then
    (getProp items "length").bind fun len =>
    if len.truthy then
      (el "h4" [] [.val (.str heading)]).bind fun h4 =>
      (createList items).bind fun ul =>
      (el "div" [("class", .str "edu-section".toList)] [.node h4, .node ul]).bind fun sect =>
      some [sect]
    else some []
  else some []

/-- The card as `el` first builds it (app.js 112-114). -/
def eduCardShell (edu : JSValue) : Option Node :=
  (eduHeaderContent edu).bind fun headerContent =>
  (el "div" [("class", .str "edu-header".toList)] headerContent).bind fun header =>
  el "div" [("class", .str "edu-card-detailed".toList)] [.node header]

/-- The grade and description paragraphs of a card (app.js 116-122). -/
def eduCardParagraphs (edu : JSValue) : Option (List Node) :=
  (getProp edu "grade").bind fun grade =>
  (eduParagraph "edu-grade" "Grade: ".toList grade).bind fun gradeP =>
  (getProp edu "description").bind fun description =>
  (eduParagraph "edu-description" [] description).bind fun descriptionP =>
  some (gradeP ++ descriptionP)

/-- The list sections of a card (app.js 124-143). -/
def eduCardSections (edu : JSValue) : Option (List Node) :=
  (getProp edu "activities").bind fun activities =>
  (eduSection "Activities & Societies".toList activities).bind fun s1 =>
  (getProp edu "areasOfStudy").bind fun areasOfStudy =>
  (eduSection "Areas of Study".toList areasOfStudy).bind fun s2 =>
  (getProp edu "highlights").bind fun highlights =>
  (eduSection "Highlights".toList highlights).bind fun s3 =>
  some (s1 ++ s2 ++ s3)

/-- The loop body of `renderEducation` (app.js 101-146): the card appended
for one entry. -/
def eduCard (edu : JSValue) : Option Node :=
  (eduCardShell edu).bind fun card =>
  (eduCardParagraphs edu).bind fun ps =>
  (eduCardSections edu).bind fun ss =>
  some ((ps ++ ss).foldl Node.appendChild card)

/-- Source: `renderEducation` (app.js 68-147).  The argument `education` is
not read. -/
def renderEducation (container : Element) (_education : JSValue) : Outcome Element :=
  fillContainer container (fun edu => (eduCard edu).map some) eduEntries

/-! ## The data loader and the page controller -/

/-- The response of `fetch`: its `ok` flag and what `res.json()` settles to,
the parsed document or the message of the parse error. -/
structure Response where
  ok : Bool
  json : Except JSString JSValue

/-- Source: `loadCV` (app.js 1-5).  The argument is what `fetch` settles to: a
response, or the message of the error it rejects with.  A thrown error is
given by its `message`. -/
def loadCV (fetched : Except JSString Response) : Except JSString JSValue :=
  match fetched with
  | .error msg => .error msg
  | .ok res => if !res.ok then .error "Failed to load cv.json".toList else res.json

/-- The part of the live document that the script reads and writes: the body
(absent while there is none), the value of its `data-page` attribute as
`getAttribute` returns it, the first element of class `error-msg`, the ids of
the elements that lie inside that element, the elements of the body that carry
an id, taken to be distinct, not nested in one another and other than the
`error-msg` element, and the e-mail addresses captured by the submit listeners
on the contact form. -/
structure Document where
  body : Option Element
  dataPage : JSValue
  errorMsg : Option Element
  errorMsgIds : List String
  elements : List (String × Element)
  submitListeners : List JSValue

/-- The first element with the given id in a list of elements by id. -/
def findElement (id : String) : List (String × Element) → Option Element
  | [] => none
  | (k, e) :: rest => if k = id then some e else findElement id rest

/-- The list with the element of the given id replaced. -/
def replaceElement (id : String) (e : Element) : List (String × Element) → List (String × Element)
  | [] => []
  | (k, old) :: rest =>
      if k = id then (k, e) :: replaceElement id e rest else (k, old) :: replaceElement id e rest

/-- The list without the elements whose id is among `ids`. -/
def removeElements (ids : List String) : List (String × Element) → List (String × Element)
  | [] => []
  | (k, e) :: rest =>
      if ids.contains k then removeElements ids rest else (k, e) :: removeElements ids rest

/-- `document.getElementById(id)`. -/
def getElementById (doc : Document) (id : String) : Option Element :=
  findElement id doc.elements

/-- Write back the element with the given id. -/
def setElement (doc : Document) (id : String) (e : Element) : Document :=
  { doc with elements := replaceElement id e doc.elements }

/-- `e.textContent = s` for a string `s`. -/
def setText (e : Element) (s : JSString) : Element :=
  { e with children := if s.isEmpty then [] else [.text s] }

/-- `e.textContent = v` for a value that is not `null`; the conversion of `v`
to a string may throw. -/
def setTextContent (e : Element) (v : JSValue) : Outcome Element :=
  match toStr v with
  | some s => .done (setText e s)
  | none => .threw e

/-- Run `f` on the element with the given id when there is one
(`if (x) f(x)`), and write the result back. -/
def withElement (doc : Document) (id : String) (f : Element → Outcome Element) : Outcome Document :=
  match getElementById doc id with
  | none => .done doc
  | some e =>
      match f e with
      | .done e1 => .done (setElement doc id e1)
      | .threw e1 => .threw (setElement doc id e1)

/-- Sequencing of two pieces of code: the second runs on what the first left,
unless the first threw. -/
def Outcome.andThen {α : Type} (o : Outcome α) (f : α → Outcome α) : Outcome α :=
  match o with
  | .done a => f a
  | .threw a => .threw a

/-- `v.slice(0, n).join(sep)`: defined on arrays; on every other value one of
the two calls throws. -/
def sliceJoin (v : JSValue) (n : Nat) (sep : JSString) : Option JSString :=
  match v with
  | .arr xs => joinElems sep (xs.take n)
  | _ => none

/-- `v && v.length` as a condition. -/
def hasLength (v : JSValue) : Bool :=
  v.truthy && (match getProp v "length" with | some len => len.truthy | none => false)

/-- A highlight card of the home page (app.js 341-344). -/
def highlightCard (heading text : JSString) : Option Node :=
  (el "h3" [] [.val (.str heading)]).bind fun h3 =>
  (el "p" [] [.val (.str text)]).bind fun p =>
  el "div" [("class", .str "highlight-card".toList)] [.node h3, .node p]

/-- The highlight cards of the home page (app.js 339-358); `none` when
building them throws. -/
def homeHighlights (cv : JSValue) : Option (List Node) :=
  (getProp cv "coreSkills").bind fun coreSkills =>
  (getProp cv "experience").bind fun experience =>
  (getProp cv "certifications").bind fun certifications =>
  (if hasLength coreSkills then
      (sliceJoin coreSkills 5 " • ".toList).bind fun t =>
      (highlightCard "Core Expertise".toList t).bind fun c => some [c]
    else some []).bind fun h1 =>
  (if hasLength experience then
      (getProp experience "length").bind fun years =>
      (toStr years).bind fun yearsText =>
      (highlightCard (yearsText ++ "+ Roles".toList)
        "Delivered digital transformation, automation, and data solutions across global teams".toList).bind
        fun c => some [c]
    else some []).bind fun h2 =>
  (if hasLength certifications then
      (getProp certifications "length").bind fun n =>
      (sliceJoin certifications 3 " • ".toList).bind fun t =>
      (toStr n).bind fun nText =>
      (highlightCard (nText ++ " Certifications".toList) t).bind fun c => some [c]
    else some []).bind fun h3 =>
  some (h1 ++ h2 ++ h3)

/-- The three buttons of the home page (app.js 333-335). -/
def heroButtons : Option (List Node) :=
  (el "a" [("href", .str "./contact.html".toList), ("class", .str "btn".toList)]
    [.val (.str "Contact Me".toList)]).bind fun b1 =>
  (el "a" [("href", .str "./experience.html".toList), ("class", .str "btn btn-secondary".toList)]
    [.val (.str "View Projects".toList)]).bind fun b2 =>
  (el "a" [("href", .str "./cv.json".toList), ("class", .str "btn btn-secondary".toList),
      ("download", .str "Govinda_Prasad_CV.json".toList)]
    [.val (.str "Download CV".toList)]).bind fun b3 =>
  some [b1, b2, b3]

/-- Append nodes to an element of the live document; `none` is a throw while
the nodes were being built, before anything was appended. -/
def appendNodes (e : Element) (ns : Option (List Node)) : Outcome Element :=
  match ns with
  | some ns => .done { e with children := e.children ++ ns }
  | none => .threw e

/-- The home branch of `main` (app.js 320-360). -/
def homePage (cv basics : JSValue) (doc : Document) : Outcome Document :=
  match getProp basics "name", getProp cv "summary" with
  | some name, some summary =>
      (((withElement doc "name" (fun e => setTextContent e (name.or (.str "Your Name".toList)))).andThen
        fun doc => withElement doc "tagline" (fun e => setTextContent e (summary.or (.str [])))).andThen
        fun doc => withElement doc "heroButtons" (fun e => appendNodes e heroButtons)).andThen
        fun doc => withElement doc "highlights" (fun e => appendNodes e (homeHighlights cv))
  | _, _ => .threw doc

/-- A contact item with a label and a link (app.js 385-390, 393-398);
`scheme` is `mailto:` or `tel:`. -/
def contactItem (label scheme : JSString) (value : JSValue) : Option Node :=
  (el "div" [("class", .str "contact-label".toList)] [.val (.str label)]).bind fun lab =>
  (toStr value).bind fun valueText =>
  (el "a" [("href", .str (scheme ++ valueText))] [.val value]).bind fun link =>
  (el "div" [] [.node lab, .node link]).bind fun inner =>
  el "div" [("class", .str "contact-item".toList)] [.node inner]

/-- The body of the profiles loop (app.js 401-407); `p?.url` is `undefined`
for a `null` or `undefined` profile. -/
def profileItem (p : JSValue) : Option (Option Node) :=
  match getProp p "url", getProp p "network" with
  | some url, some network =>
      if url.truthy then
        (el "a" [("href", url), ("target", .str "_blank".toList), ("rel", .str "noreferrer".toList)]
          [.val (network.or (.str "Link".toList))]).bind fun link =>
        (el "div" [("class", .str "contact-item".toList)] [.node link]).bind fun item =>
        some (some item)
      else some none
  | _, _ => some none

/-- An optional contact item: appended when `value` is truthy. -/
def appendContact (label scheme : JSString) (value : JSValue) (e : Element) : Outcome Element :=
  if value.truthy then appendNodes e ((contactItem label scheme value).map fun n => [n])
  else .done e

/-- The contact-info block of the certifications page (app.js 383-408). -/
def contactInfo (basics : JSValue) (e : Element) : Outcome Element :=
  match getProp basics "email", getProp basics "phone", getProp basics "profiles" with
  | some email, some phone, some profiles =>
      ((appendContact "Email".toList "mailto:".toList email e).andThen
        (appendContact "Phone".toList "tel:".toList phone)).andThen
        fun e =>
          match appendEach profileItem (asArray profiles) e.children with
          | .done ns => .done { e with children := ns }
          | .threw ns => .threw { e with children := ns }
  | _, _, _ => .threw e

/-- `form.addEventListener("submit", ...)` when the contact form is there
(app.js 378-381); the listener keeps `basics.email`. -/
def addSubmitListener (basics : JSValue) (doc : Document) : Outcome Document :=
  match getElementById doc "contactForm", getProp basics "email" with
  | none, _ => .done doc
  | some _, some email => .done { doc with submitListeners := doc.submitListeners ++ [email] }
  | some _, none => .threw doc

/-- The certifications branch of `main` (app.js 375-409). -/
def certificationsPage (cv basics : JSValue) (doc : Document) : Outcome Document :=
  match getProp cv "certifications" with
  | some certs =>
      ((withElement doc "certifications" (fun e => renderCertifications e (certs.or (.arr [])))).andThen
        (addSubmitListener basics)).andThen
        fun doc => withElement doc "contactInfo" (contactInfo basics)
  | none => .threw doc

/-- The experience branch of `main` (app.js 361-363). -/
def experiencePage (cv : JSValue) (doc : Document) : Outcome Document :=
  match getProp cv "experience" with
  | some experience =>
      withElement doc "experience" (fun e => renderExperienceCards e (experience.or (.arr [])))
  | none => .threw doc

/-- The skills branch of `main` (app.js 364-371). -/
def skillsPage (cv : JSValue) (doc : Document) : Outcome Document :=
  match getProp cv "coreSkills", getProp cv "technicalSkills" with
  | some coreSkills, some technicalSkills =>
      (withElement doc "coreSkills" (fun e => renderSkillsGrid e (coreSkills.or (.arr [])))).andThen
        fun doc => withElement doc "technicalSkills"
          (fun e => renderTechSkillsWithCategories e (.arr (normalizeTechSkills technicalSkills)))
  | _, _ => .threw doc

/-- The education branch of `main` (app.js 372-374). -/
def educationPage (doc : Document) : Outcome Document :=
  withElement doc "education" (fun e => renderEducation e (.arr []))

/-- The `try` block of `main` after the load (app.js 317-409). -/
def runPage (cv : JSValue) (doc : Document) : Outcome Document :=
  match getProp cv "basics", doc.body with
  | some basics, some _ =>
      if strictEqStr doc.dataPage "home".toList then homePage cv (basics.or (.obj [])) doc
      else if strictEqStr doc.dataPage "experience".toList then experiencePage cv doc
      else if strictEqStr doc.dataPage "skills".toList then skillsPage cv doc
      else if strictEqStr doc.dataPage "education".toList then educationPage doc
      else if strictEqStr doc.dataPage "certifications".toList then
        certificationsPage cv (basics.or (.obj [])) doc
      else .done doc
  | _, _ => .threw doc

/-- The element the `catch` block writes to (app.js 411):
`document.querySelector(".error-msg") || document.body`. -/
def errorTarget (doc : Document) : Option Element :=
  match doc.errorMsg with
  | some e => some e
  | none => doc.body

/-- What the `catch` block does to its target (app.js 413-414): the target is
shown and its content replaced by the message. -/
def showErrorOn (message : JSString) (e : Element) : Element :=
  setText { e with display := "block".toList } ("Error loading data: ".toList ++ message)

/-- The `catch` block of `main` (app.js 410-416).  Replacing the content of
the target removes what was inside it from the document: the elements by id
inside the `error-msg` element, or, when the target is the body, every
element by id. -/
def showError (message : JSString) (doc : Document) : Document :=
  match doc.errorMsg with
  | some e =>
      { doc with
        errorMsg := some (showErrorOn message e)
        errorMsgIds := []
        elements := removeElements doc.errorMsgIds doc.elements }
  | none =>
      match doc.body with
      | some b => { doc with body := some (showErrorOn message b), elements := [] }
      | none => doc

/-- Source: `main` (app.js 314-417).  `fetched` is what `fetch` settles to and
`hostMessage` the message of the `TypeError` that the host raises if rendering
throws. -/
def main (hostMessage : JSString) (fetched : Except JSString Response) (doc : Document) : Document :=
  match loadCV fetched with
  | .error msg => showError msg doc
  | .ok cv =>
      match runPage cv doc with
      | .done doc1 => doc1
      | .threw doc1 => showError hostMessage doc1

/-! ## Shapes named in the theorems -/

/-- The `cert-display` section for one media entry: a heading with the
entry's name and an image whose source is `./` followed by the entry's file. -/
def certDisplay (name file : JSString) : Node :=
  .elem "div" [("class", "cert-display".toList)]
    [ .elem "h3" [("class", "cert-name".toList)] [.text name],
      .elem "img" [("src", "./".toList ++ file), ("alt", name),
        ("class", "cert-full-image".toList)] [] ]

/-- A flat skill box with the given text. -/
def skillBox (t : JSString) : Node :=
  .elem "div" [("class", "skill-box".toList)] [.text t]

/-- A category group: the label as heading, then the sub-grid with its boxes. -/
def categoryGroupNode (label : JSString) (boxes : List Node) : Node :=
  .elem "div" [("class", "skill-category-group".toList)]
    [ .elem "h3" [("class", "skill-category".toList)] [.text label],
      .elem "div" [("class", "skills-sub-grid".toList)] boxes ]

/-- The content block of a job card: the title element, the meta element with
the company, location and dates spans, then the body. -/
def jobContentNode (title company location dates : JSString) (body : List Node) : Node :=
  .elem "div" [("class", "job-content".toList)]
    ([ .elem "div" [("class", "job-title".toList)] [.text title],
       .elem "div" [("class", "job-meta".toList)]
         [ .elem "span" [] [.text company],
           .elem "span" [] [.text location],
           .elem "span" [] [.text dates] ] ] ++ body)

/-- A list with one item per text. -/
def itemList (items : List JSString) : Node :=
  .elem "ul" [] (items.map fun h => .elem "li" [] [.text h])

/-- A paragraph with the given text. -/
def paragraph (t : JSString) : Node :=
  .elem "p" [] [.text t]

/-- A job card: the logo block, when there is one, then the content block. -/
def jobCardNode (logo : List Node) (title company location dates : JSString)
    (body : List Node) : Node :=
  .elem "div" [("class", "job-card".toList)]
    (logo ++ [jobContentNode title company location dates body])

/-- The truthy entries of a value taken as a sequence:
`asArray(v).filter(Boolean)`. -/
def truthyEntries (v : JSValue) : List JSValue :=
  (asArray v).filter JSValue.truthy

/-- A job record with a description and no highlights, for the examples. -/
def sampleParagraphJob : JSValue :=
  .obj [("title", .str "Engineer".toList), ("company", .str "Acme".toList),
    ("location", .str "Pune".toList), ("dates", .str "2015".toList),
    ("description", .str "Built pumps.".toList)]

/-- A job record with highlights, one of them empty, and a description. -/
def sampleListJob : JSValue :=
  .obj [("role", .str "Lead".toList), ("company", .str "SAS Institute".toList),
    ("startDate", .str "2019".toList), ("endDate", .str "2021".toList),
    ("highlights", .arr [.str "Built it".toList, .str [], .str "Ran it".toList]),
    ("description", .str "unused".toList)]

/-- A job record with a highlight that is a number. -/
def sampleBadJob : JSValue :=
  .obj [("title", .str "Engineer".toList), ("company", .str "Acme".toList),
    ("location", .str "Pune".toList), ("dates", .str "2015".toList),
    ("highlights", .arr [.str "ok".toList, .num .one])]

/-- A job record without `highlights` and `description`, for the examples. -/
def sampleJob : JSValue :=
  .obj [("title", .str "Analyst".toList), ("company", .str "Acme".toList),
    ("location", .str "Lyngby".toList), ("dates", .str "2020".toList)]

/-- The card of `sampleJob`: title, company, location and dates, no list and
no paragraph. -/
def sampleJobCard : Node :=
  .elem "div" [("class", "job-card".toList)]
    [jobContentNode "Analyst".toList "Acme".toList "Lyngby".toList "2020".toList []]

/-- A CV document with one core skill and a delimited technical-skills
string, for the examples. -/
def sampleSkillsCv : JSValue :=
  .obj [("coreSkills", .arr [.str "SQL".toList]),
    ("technicalSkills", .str "Languages: English, Danish".toList)]

/-- A skills page with both grids, each holding earlier content. -/
def sampleSkillsDoc : Document :=
  { body := some ⟨[], []⟩
    dataPage := .str "skills".toList
    errorMsg := none
    errorMsgIds := []
    elements := [("coreSkills", ⟨[], [.text "old".toList]⟩),
      ("technicalSkills", ⟨[], [.text "old".toList]⟩)]
    submitListeners := [] }

/-! ## Theorems: `asArray` and `normalizeTechSkills` -/

/-- C8: `asArray` gives the empty sequence on a falsy value (`null`,
`undefined`, `false`, `0`, the empty string), gives a sequence back unchanged,
and wraps every other value in a one-element sequence; `null` gives `[]` and
`"X"` gives `["X"]`. -/
theorem asArray_spec :
    (∀ v : JSValue, v.truthy = false → asArray v = []) ∧
    asArray .null = [] ∧ asArray .undefined = [] ∧ asArray (.bool false) = [] ∧
    asArray (.num .zero) = [] ∧ asArray (.str []) = [] ∧
    (∀ xs : List JSValue, asArray (.arr xs) = xs) ∧
    (∀ v : JSValue, v.truthy = true → v.isArray = false → asArray v = [v]) ∧
    asArray (.str "X".toList) = [.str "X".toList] := by
  refine ⟨?_, rfl, rfl, rfl, rfl, rfl, ?_, ?_, rfl⟩
  · intro v h
    simp [asArray, h]
  · intro xs
    simp [asArray, JSValue.truthy]
  · intro v ht ha
    cases v <;> simp_all [asArray, JSValue.truthy, JSValue.isArray]

/-- C1: on a keyed structure `normalizeTechSkills` returns the first of the
properties `flat`, `skills`, `items` whose value is an array, and the empty
sequence when none is; a function under `flat` is passed over, and
`{ skills: ["A","B"] }` gives `["A","B"]`. -/
theorem normalizeTechSkills_object (fields : List (String × JSValue)) :
    (∀ xs, lookupField "flat" fields = .arr xs → normalizeTechSkills (.obj fields) = xs) ∧
    ((lookupField "flat" fields).isArray = false →
      ∀ xs, lookupField "skills" fields = .arr xs → normalizeTechSkills (.obj fields) = xs) ∧
    ((lookupField "flat" fields).isArray = false →
      (lookupField "skills" fields).isArray = false →
      ∀ xs, lookupField "items" fields = .arr xs → normalizeTechSkills (.obj fields) = xs) ∧
    ((lookupField "flat" fields).isArray = false →
      (lookupField "skills" fields).isArray = false →
      (lookupField "items" fields).isArray = false → normalizeTechSkills (.obj fields) = []) ∧
    (∀ name arity src skills items, fields = [("flat", .func name arity src), ("skills", .arr skills),
        ("items", .arr items)] → normalizeTechSkills (.obj fields) = skills) ∧
    normalizeTechSkills (.obj [("skills", .arr [.str "A".toList, .str "B".toList])])
      = [.str "A".toList, .str "B".toList] := by
  refine ⟨?_, ?_, ?_, ?_, ?_, rfl⟩
  · intro xs h
    simp [normalizeTechSkills, JSValue.truthy, h]
  · intro hf xs h
    simp only [normalizeTechSkills, JSValue.truthy, Bool.not_true, Bool.false_eq_true, if_false]
    split
    · rename_i ys hy
      simp [hy, JSValue.isArray] at hf
    · simp [h]
  · intro hf hs xs h
    simp only [normalizeTechSkills, JSValue.truthy, Bool.not_true, Bool.false_eq_true, if_false]
    split
    · rename_i ys hy
      simp [hy, JSValue.isArray] at hf
    · split
      · rename_i ys hy
        simp [hy, JSValue.isArray] at hs
      · simp [h]
  · intro hf hs hi
    simp only [normalizeTechSkills, JSValue.truthy, Bool.not_true, Bool.false_eq_true, if_false]
    split
    · rename_i ys hy
      simp [hy, JSValue.isArray] at hf
    · split
      · rename_i ys hy
        simp [hy, JSValue.isArray] at hs
      · split
        · rename_i ys hy
          simp [hy, JSValue.isArray] at hi
        · rfl
  · intro name arity src skills items h
    subst h
    rfl

/-- C3, the claim as stated fails: on the array `[1]` the normalizer returns
the array as it is, and its element is a number, not a string. -/
theorem normalizeTechSkills_not_all_strings :
    normalizeTechSkills (.arr [.num .one]) = [.num .one] ∧
    ∃ x ∈ normalizeTechSkills (.arr [.num .one]), x.isString = false :=
  ⟨rfl, .num .one, by simp [normalizeTechSkills, JSValue.truthy], rfl⟩

/-- C3, amended: `normalizeTechSkills` returns a sequence on every input; its
elements are all strings when the input is a string; an array input comes
back unchanged; on a keyed structure the result is empty or is the array held
by one of `flat`, `skills`, `items`, unchanged; every other input gives the
empty sequence. -/
theorem normalizeTechSkills_elements (v : JSValue) :
    (∀ s, v = .str s → ∀ x ∈ normalizeTechSkills v, x.isString = true) ∧
    (∀ xs, v = .arr xs → normalizeTechSkills v = xs) ∧
    (∀ fields, v = .obj fields → normalizeTechSkills v = [] ∨
      ∃ k ∈ ["flat", "skills", "items"], lookupField k fields = .arr (normalizeTechSkills v)) ∧
    (v.isString = false → v.isArray = false → (∀ fields, v ≠ .obj fields) →
      normalizeTechSkills v = []) := by
  refine ⟨?_, ?_, ?_, ?_⟩
  · rintro s rfl x hx
    unfold normalizeTechSkills at hx
    split at hx
    · simp at hx
    · simp only [List.mem_map] at hx
      obtain ⟨t, _, rfl⟩ := hx
      rfl
  · rintro xs rfl
    simp [normalizeTechSkills, JSValue.truthy]
  · rintro fields rfl
    simp only [normalizeTechSkills, JSValue.truthy, Bool.not_true, Bool.false_eq_true, if_false]
    split
    · rename_i ys hy
      exact Or.inr ⟨"flat", by simp, hy⟩
    · split
      · rename_i ys hy
        exact Or.inr ⟨"skills", by simp, hy⟩
      · split
        · rename_i ys hy
          exact Or.inr ⟨"items", by simp, hy⟩
        · exact Or.inl rfl
  · intro h1 h2 h3
    cases v <;> simp_all [normalizeTechSkills, JSValue.truthy, JSValue.isArray, JSValue.isString]

/-! ## Lemmas on `splitOn` and `trim` -/

theorem splitOn_ne_nil (c : Char) (s : JSString) : splitOn c s ≠ [] := by
  induction s with
  | nil => simp [splitOn]
  | cons x xs ih =>
    unfold splitOn
    split
    · simp
    · split <;> simp

theorem joinWith_cons_cons (sep g : JSString) (x : Char) (rest : List JSString) :
    joinWith sep ((x :: g) :: rest) = x :: joinWith sep (g :: rest) := by
  cases rest <;> simp [joinWith]

theorem joinWith_splitOn (c : Char) (s : JSString) : joinWith [c] (splitOn c s) = s := by
  induction s with
  | nil => simp [splitOn, joinWith]
  | cons x xs ih =>
    unfold splitOn
    split
    · rename_i h
      cases hs : splitOn c xs with
      | nil => exact absurd hs (splitOn_ne_nil c xs)
      | cons g rest =>
        rw [hs] at ih
        simp [joinWith, ih, h]
    · cases hs : splitOn c xs with
      | nil => exact absurd hs (splitOn_ne_nil c xs)
      | cons g rest =>
        rw [hs] at ih
        simp [joinWith_cons_cons, ih]

theorem not_mem_of_mem_splitOn (c : Char) (s : JSString) :
    ∀ g ∈ splitOn c s, c ∉ g := by
  induction s with
  | nil => simp [splitOn]
  | cons x xs ih =>
    unfold splitOn
    split
    · intro g hg
      simp only [List.mem_cons] at hg
      rcases hg with rfl | hg
      · simp
      · exact ih g hg
    · rename_i h
      cases hs : splitOn c xs with
      | nil => exact absurd hs (splitOn_ne_nil c xs)
      | cons g0 rest =>
        rw [hs] at ih
        intro g hg
        simp only [List.mem_cons] at hg
        rcases hg with rfl | hg
        · have := ih g0 (by simp)
          simp only [List.mem_cons, not_or]
          exact ⟨fun e => h e.symm, this⟩
        · exact ih g (by simp [hg])

theorem splitOn_of_not_mem (c : Char) (s : JSString) (h : c ∉ s) : splitOn c s = [s] := by
  induction s with
  | nil => simp [splitOn]
  | cons x xs ih =>
    simp only [List.mem_cons, not_or] at h
    unfold splitOn
    rw [if_neg (fun e => h.1 e.symm), ih h.2]

/-- The leading and trailing white space that `trim` removes. -/
theorem trim_decompose (s : JSString) :
    ∃ pre post, s = pre ++ trim s ++ post ∧
      (∀ c ∈ pre, isJSWhitespace c = true) ∧ (∀ c ∈ post, isJSWhitespace c = true) := by
  refine ⟨s.takeWhile isJSWhitespace,
    (((s.dropWhile isJSWhitespace).reverse.takeWhile isJSWhitespace)).reverse, ?_, ?_, ?_⟩
  · unfold trim
    rw [List.append_assoc, ← List.reverse_append, List.takeWhile_append_dropWhile,
      List.reverse_reverse, List.takeWhile_append_dropWhile]
  · intro c hc
    exact List.mem_takeWhile_imp hc
  · intro c hc
    rw [List.mem_reverse] at hc
    exact List.mem_takeWhile_imp hc

theorem trim_sublist (s : JSString) : List.Sublist (trim s) s := by
  unfold trim
  exact ((List.reverse_sublist.mpr (List.dropWhile_sublist _)).trans
    (by rw [List.reverse_reverse]; exact List.dropWhile_sublist _))

theorem head_dropWhile_not (p : Char → Bool) (l : List Char) (c : Char)
    (h : (l.dropWhile p).head? = some c) : p c = false := by
  induction l with
  | nil => simp at h
  | cons x xs ih =>
    by_cases hx : p x = true
    · rw [List.dropWhile_cons_of_pos hx] at h
      exact ih h
    · rw [List.dropWhile_cons_of_neg hx] at h
      simp at h
      subst h
      simpa using hx

theorem trim_getLast (s : JSString) (c : Char) (h : (trim s).getLast? = some c) :
    isJSWhitespace c = false := by
  unfold trim at h
  rw [List.getLast?_reverse] at h
  exact head_dropWhile_not _ _ _ h

theorem trim_head (s : JSString) (c : Char) (h : (trim s).head? = some c) :
    isJSWhitespace c = false := by
  have hd : ∃ post, s.dropWhile isJSWhitespace = trim s ++ post := by
    refine ⟨((s.dropWhile isJSWhitespace).reverse.takeWhile isJSWhitespace).reverse, ?_⟩
    unfold trim
    rw [← List.reverse_append, List.takeWhile_append_dropWhile, List.reverse_reverse]
  obtain ⟨post, hp⟩ := hd
  apply head_dropWhile_not isJSWhitespace s c
  rw [hp]
  cases ht : trim s with
  | nil => simp [ht] at h
  | cons a l => simpa [ht] using h

theorem normalizeTechSkills_str (s : JSString) (h : s ≠ []) :
    normalizeTechSkills (.str s)
      = (((splitOn ',' s).map trim).filter (fun t => decide (t ≠ []))).map .str := by
  cases s with
  | nil => exact absurd rfl h
  | cons x xs =>
    simp only [normalizeTechSkills, JSValue.truthy, List.isEmpty_cons, Bool.not_false,
      Bool.not_true, Bool.false_eq_true, if_false]
    congr 1
    apply List.filter_congr
    intro t _
    cases t <;> simp

/-- C2: on a non-empty string `normalizeTechSkills` returns, in order, the
comma-separated segments of the string with the white space around them
removed and the segments that are then empty left out; so no element is
empty, contains a comma, or starts or ends with white space. -/
theorem normalizeTechSkills_string (s : JSString) (h : s ≠ []) :
    ∃ segs : List JSString,
      joinWith [','] segs = s ∧ (∀ g ∈ segs, ',' ∉ g) ∧
      (∀ g ∈ segs, ∃ pre post, g = pre ++ trim g ++ post ∧
        (∀ c ∈ pre, isJSWhitespace c = true) ∧ (∀ c ∈ post, isJSWhitespace c = true)) ∧
      normalizeTechSkills (.str s)
        = ((segs.map trim).filter (fun t => decide (t ≠ []))).map .str ∧
      ∀ x ∈ normalizeTechSkills (.str s), ∃ t, x = .str t ∧ t ≠ [] ∧ ',' ∉ t ∧
        (∀ c, t.head? = some c → isJSWhitespace c = false) ∧
        (∀ c, t.getLast? = some c → isJSWhitespace c = false) := by
  refine ⟨splitOn ',' s, joinWith_splitOn ',' s, not_mem_of_mem_splitOn ',' s,
    fun g _ => trim_decompose g, normalizeTechSkills_str s h, ?_⟩
  intro x hx
  rw [normalizeTechSkills_str s h] at hx
  simp only [List.mem_map, List.mem_filter, decide_eq_true_eq] at hx
  obtain ⟨t, ⟨⟨g, hg, rfl⟩, hne⟩, rfl⟩ := hx
  refine ⟨trim g, rfl, hne, ?_, trim_head g, trim_getLast g⟩
  intro hc
  exact not_mem_of_mem_splitOn ',' s g hg ((trim_sublist g).subset hc)

/-- C2 at the two strings of the specification: `"SQL, Python, Go"` gives
`["SQL","Python","Go"]` and `"SQL,,Python"` gives `["SQL","Python"]`. -/
theorem normalizeTechSkills_string_witness :
    "SQL, Python, Go".toList ≠ [] ∧
    normalizeTechSkills (.str "SQL, Python, Go".toList)
      = [.str "SQL".toList, .str "Python".toList, .str "Go".toList] ∧
    normalizeTechSkills (.str "SQL,,Python".toList) = [.str "SQL".toList, .str "Python".toList] ∧
    ∃ segs : List JSString,
      joinWith [','] segs = "SQL, Python, Go".toList ∧ (∀ g ∈ segs, ',' ∉ g) ∧
      (∀ g ∈ segs, ∃ pre post, g = pre ++ trim g ++ post ∧
        (∀ c ∈ pre, isJSWhitespace c = true) ∧ (∀ c ∈ post, isJSWhitespace c = true)) ∧
      normalizeTechSkills (.str "SQL, Python, Go".toList)
        = ((segs.map trim).filter (fun t => decide (t ≠ []))).map .str ∧
      ∀ x ∈ normalizeTechSkills (.str "SQL, Python, Go".toList), ∃ t, x = .str t ∧ t ≠ [] ∧
        ',' ∉ t ∧ (∀ c, t.head? = some c → isJSWhitespace c = false) ∧
        (∀ c, t.getLast? = some c → isJSWhitespace c = false) :=
  ⟨by decide, rfl, rfl, normalizeTechSkills_string "SQL, Python, Go".toList (by decide)⟩

/-! ## Theorems: renderers -/

theorem fillContainer_done {α : Type} (c c1 : Element) (body : α → Option (Option Node))
    (xs : List α) (h : fillContainer c body xs = .done c1) :
    fillContainer c1 body xs = .done c1 ∧
      fillContainer { c with children := [] } body xs = .done c1 ∧
      c1.display = c.display := by
  unfold fillContainer at h ⊢
  cases hb : appendEach body xs [] with
  | done ns =>
    rw [hb] at h
    simp only [Outcome.done.injEq] at h
    subst h
    simp
  | threw ns =>
    rw [hb] at h
    simp at h

/-- C6: whatever the container held and whatever `certs` is, the
`renderCertifications` that runs leaves the container with exactly six
`cert-display` sections, one per `CERT_MEDIA` entry in order, each with the
entry's name as heading and `./` plus the entry's file as image source; the
argument `certs` makes no difference. -/
theorem renderCertifications_fixed (c : Element) (certs : JSValue) :
    ∃ sections : List Node,
      renderCertifications c certs = .done { c with children := sections } ∧
      sections.length = 6 ∧
      List.Forall₂ (fun m sec => ∃ name file, getProp m "name" = some (.str name) ∧
        getProp m "file" = some (.str file) ∧ sec = certDisplay name file) CERT_MEDIA sections ∧
      ∀ certs2, renderCertifications c certs2 = renderCertifications c certs := by
  refine ⟨CERT_MEDIA.map (fun m =>
      match getProp m "name", getProp m "file" with
      | some (.str name), some (.str file) => certDisplay name file
      | _, _ => default), rfl, rfl, ?_, fun _ => rfl⟩
  simp only [CERT_MEDIA, List.map]
  repeat first
    | exact List.Forall₂.nil
    | refine List.Forall₂.cons ⟨_, _, rfl, rfl, rfl⟩ ?_

/-- C4: for each of the five container renderers, whatever the container held
before, if the renderer completes on some data then running it again on the
same data leaves exactly what the first run left, and that is what a run on
the emptied container leaves: one copy of the output and nothing of the
earlier content. -/
theorem renderers_idempotent (c c1 : Element) (d : JSValue) :
    (renderSkillsGrid c d = .done c1 →
      renderSkillsGrid c1 d = .done c1 ∧
      renderSkillsGrid { c with children := [] } d = .done c1) ∧
    (renderTechSkillsWithCategories c d = .done c1 →
      renderTechSkillsWithCategories c1 d = .done c1 ∧
      renderTechSkillsWithCategories { c with children := [] } d = .done c1) ∧
    (renderExperienceCards c d = .done c1 →
      renderExperienceCards c1 d = .done c1 ∧
      renderExperienceCards { c with children := [] } d = .done c1) ∧
    (renderEducation c d = .done c1 →
      renderEducation c1 d = .done c1 ∧
      renderEducation { c with children := [] } d = .done c1) ∧
    (renderCertifications c d = .done c1 →
      renderCertifications c1 d = .done c1 ∧
      renderCertifications { c with children := [] } d = .done c1) := by
  refine ⟨?_, ?_, ?_, ?_, ?_⟩ <;> intro h
  · exact ⟨(fillContainer_done c c1 _ _ h).1, (fillContainer_done c c1 _ _ h).2.1⟩
  · exact ⟨(fillContainer_done c c1 _ _ h).1, (fillContainer_done c c1 _ _ h).2.1⟩
  · exact ⟨(fillContainer_done c c1 _ _ h).1, (fillContainer_done c c1 _ _ h).2.1⟩
  · exact ⟨(fillContainer_done c c1 _ _ h).1, (fillContainer_done c c1 _ _ h).2.1⟩
  · exact ⟨(fillContainer_done c c1 _ _ h).1, (fillContainer_done c c1 _ _ h).2.1⟩

/-- C4 on a container that already holds a text node, once for each renderer:
the run completes, and a second run on the same data leaves the same
container. -/
theorem renderers_idempotent_witness :
    (∃ c1, renderSkillsGrid ⟨[], [.text "old".toList]⟩
        (.arr [.str "SQL".toList, .str [], .str "Go".toList]) = .done c1 ∧
      c1.children = [ .elem "div" [("class", "skill-box".toList)] [.text "SQL".toList],
                      .elem "div" [("class", "skill-box".toList)] [.text "Go".toList] ] ∧
      renderSkillsGrid c1 (.arr [.str "SQL".toList, .str [], .str "Go".toList]) = .done c1) ∧
    (∃ c1, renderTechSkillsWithCategories ⟨[], [.text "old".toList]⟩
        (.arr [.str "Tools: Excel".toList, .str "Go".toList]) = .done c1 ∧
      c1.children.length = 2 ∧
      renderTechSkillsWithCategories c1 (.arr [.str "Tools: Excel".toList, .str "Go".toList])
        = .done c1) ∧
    (∃ c1, renderExperienceCards ⟨[], [.text "old".toList]⟩
        (.arr [.obj [("title", .str "Analyst".toList), ("company", .str "SAS".toList)]]) = .done c1 ∧
      c1.children.length = 1 ∧
      renderExperienceCards c1
        (.arr [.obj [("title", .str "Analyst".toList), ("company", .str "SAS".toList)]])
        = .done c1) ∧
    (∃ c1, renderEducation ⟨[], [.text "old".toList]⟩ (.arr []) = .done c1 ∧
      c1.children.length = 2 ∧ renderEducation c1 (.arr []) = .done c1) ∧
    (∃ c1, renderCertifications ⟨[], [.text "old".toList]⟩ (.arr []) = .done c1 ∧
      c1.children.length = 6 ∧ renderCertifications c1 (.arr []) = .done c1) :=
  ⟨⟨_, rfl, rfl, ((renderers_idempotent ⟨[], [.text "old".toList]⟩ _
      (.arr [.str "SQL".toList, .str [], .str "Go".toList])).1 rfl).1⟩,
   ⟨_, rfl, rfl, ((renderers_idempotent ⟨[], [.text "old".toList]⟩ _
      (.arr [.str "Tools: Excel".toList, .str "Go".toList])).2.1 rfl).1⟩,
   ⟨_, rfl, rfl, ((renderers_idempotent ⟨[], [.text "old".toList]⟩ _
      (.arr [.obj [("title", .str "Analyst".toList), ("company", .str "SAS".toList)]])).2.2.1
      rfl).1⟩,
   ⟨_, rfl, rfl, ((renderers_idempotent ⟨[], [.text "old".toList]⟩ _ (.arr [])).2.2.2.1 rfl).1⟩,
   ⟨_, rfl, rfl, ((renderers_idempotent ⟨[], [.text "old".toList]⟩ _ (.arr [])).2.2.2.2 rfl).1⟩⟩

/-! ## Theorems: categorized skills -/

theorem appendEach_filterMap {α : Type} (body : α → Option (Option Node)) (g : α → Option Node)
    (xs : List α) (acc : List Node) (h : ∀ x ∈ xs, body x = some (g x)) :
    appendEach body xs acc = .done (acc ++ xs.filterMap g) := by
  induction xs generalizing acc with
  | nil => simp [appendEach]
  | cons x xs ih =>
    have hx := h x (by simp)
    have ih2 := fun acc => ih acc (fun y hy => h y (by simp [hy]))
    unfold appendEach
    rw [hx]
    cases hg : g x with
    | none => simp [ih2, List.filterMap_cons, hg]
    | some n => simp [ih2, List.filterMap_cons, hg]

theorem foldl_appendChild (tag : String) (attrs : List (String × JSString))
    (cs ns : List Node) :
    ns.foldl Node.appendChild (.elem tag attrs cs) = .elem tag attrs (cs ++ ns) := by
  induction ns generalizing cs with
  | nil => simp
  | cons n ns ih => simp [Node.appendChild, ih]

theorem filterMap_trim_boxes (gs : List JSString) :
    gs.filterMap (fun item => if trim item ≠ [] then some (skillBox (trim item)) else none)
      = (((gs.map trim).filter (fun t => decide (t ≠ []))).map skillBox) := by
  induction gs with
  | nil => rfl
  | cons g gs ih =>
    rw [List.filterMap_cons, List.map_cons, List.filter_cons, ih]
    by_cases hg : trim g = []
    · simp [hg]
    · simp [hg]

theorem subBoxes_eq (items : JSString) :
    subBoxes items
      = some ((((splitOn ',' items).map trim).filter (fun t => decide (t ≠ []))).map skillBox) := by
  unfold subBoxes buildEach
  rw [appendEach_filterMap _ (fun item => if trim item ≠ [] then some (skillBox (trim item)) else none)]
  · simp only [List.nil_append, filterMap_trim_boxes]
  · intro x _
    cases ht : trim x with
    | nil => simp [JSValue.truthy]
    | cons a l => simp [JSValue.truthy, el, childNodes, Child.toNode, applyAttrs, toStr, skillBox]

theorem categoryGroup_eq (category items : JSString) :
    categoryGroup category items
      = some (categoryGroupNode category
          ((((splitOn ',' items).map trim).filter (fun t => decide (t ≠ []))).map skillBox)) := by
  simp [categoryGroup, subBoxes_eq, el, childNodes, Child.toNode, applyAttrs, toStr,
    Node.appendChild, foldl_appendChild, categoryGroupNode]

theorem includes_singleton (c : Char) (t : JSString) : includes t [c] = true ↔ c ∈ t := by
  induction t with
  | nil => simp [includes]
  | cons x xs ih =>
    unfold includes
    simp only [startsWith, Bool.and_true, Bool.or_eq_true, beq_iff_eq, ih, List.mem_cons]

theorem exists_first_split (c : Char) (t : JSString) (h : c ∈ t) :
    ∃ a r, c ∉ a ∧ t = a ++ c :: r := by
  induction t with
  | nil => simp at h
  | cons x xs ih =>
    by_cases hx : x = c
    · exact ⟨[], xs, by simp, by simp [hx]⟩
    · have hm : c ∈ xs := by
        rcases List.mem_cons.mp h with e | e
        · exact absurd e.symm hx
        · exact e
      obtain ⟨a, r, ha, hr⟩ := ih hm
      refine ⟨x :: a, r, ?_, by simp [hr]⟩
      simp only [List.mem_cons, not_or]
      exact ⟨fun e => hx e.symm, ha⟩

theorem splitOn_append_sep (c : Char) (a r : JSString) (ha : c ∉ a) :
    splitOn c (a ++ c :: r) = a :: splitOn c r := by
  induction a with
  | nil => simp [splitOn]
  | cons x xs ih =>
    simp only [List.mem_cons, not_or] at ha
    rw [List.cons_append, splitOn, if_neg (fun e => ha.1 e.symm), ih ha.2]

theorem splitOn_head (c : Char) (r : JSString) :
    ∃ b rest, splitOn c r = b :: rest ∧ ∀ x ∈ b, x ∈ r := by
  induction r with
  | nil => exact ⟨[], [], rfl, by simp⟩
  | cons x xs ih =>
    obtain ⟨b, rest, hb, hm⟩ := ih
    by_cases hx : x = c
    · exact ⟨[], splitOn c xs, by simp [splitOn, hx], by simp⟩
    · refine ⟨x :: b, rest, by simp [splitOn, hx, hb], ?_⟩
      intro y hy
      rcases List.mem_cons.mp hy with e | e
      · simp [e]
      · simp [hm y e]

/-- What the loop body of `renderTechSkillsWithCategories` appends for a string
without `:`: one flat box. -/
theorem skillNode_flat (t : JSString) (h : ':' ∉ t) : skillNode (.str t) = some (skillBox t) := by
  have hi : includes t [':'] = false := by
    rw [Bool.eq_false_iff]
    intro e
    exact h ((includes_singleton ':' t).mp e)
  simp [skillNode, toStr, hi, el, childNodes, Child.toNode, applyAttrs, skillBox]

/-- What the loop body appends for a string with `:`: one category group.
Its label is the trimmed text before the first `:` and its boxes come from
the trimmed text between the first `:` and the next one (or the end). -/
theorem skillNode_category (a r : JSString) (ha : ':' ∉ a) :
    ∃ b rest, splitOn ':' r = b :: rest ∧
      skillNode (.str (a ++ ':' :: r)) = some (categoryGroupNode (trim a)
        ((((splitOn ',' (trim b)).map trim).filter (fun t => decide (t ≠ []))).map skillBox)) := by
  obtain ⟨b, rest, hb, _⟩ := splitOn_head ':' r
  refine ⟨b, rest, hb, ?_⟩
  have hi : includes (a ++ ':' :: r) [':'] = true :=
    (includes_singleton ':' _).mpr (by simp)
  have hl : ":".toList = [':'] := rfl
  simp only [skillNode, toStr, Option.some_bind, hl, hi, if_true, splitOn_append_sep ':' a r ha, hb, List.map_cons,
    categoryGroup_eq]

theorem mem_of_mem_trim (s : JSString) (x : Char) (h : x ∈ trim s) : x ∈ s :=
  (trim_sublist s).subset h

theorem mem_normalizeTechSkills_str (s : JSString) (x : JSValue)
    (h : x ∈ normalizeTechSkills (.str s)) :
    ∃ g ∈ splitOn ',' s, x = .str (trim g) ∧ trim g ≠ [] := by
  unfold normalizeTechSkills at h
  split at h
  · simp at h
  · simp only [List.mem_map, List.mem_filter] at h
    obtain ⟨t, ⟨⟨g, hg, rfl⟩, ht⟩, rfl⟩ := h
    refine ⟨g, hg, rfl, ?_⟩
    intro e
    simp [e, JSValue.truthy] at ht

/-- The node appended for a string without a comma: a flat box, or a category
group with at most one box. -/
theorem skillNode_no_comma (t : JSString) (h : ',' ∉ t) :
    ∃ n, skillNode (.str t) = some n ∧
      ((∃ u, n = skillBox u) ∨
        ∃ label boxes, n = categoryGroupNode label boxes ∧ boxes.length ≤ 1) := by
  by_cases hc : ':' ∈ t
  · obtain ⟨a, r, ha, rfl⟩ := exists_first_split ':' t hc
    obtain ⟨b, rest, hb, hm⟩ := splitOn_head ':' r
    obtain ⟨b2, rest2, hb2, hn⟩ := skillNode_category a r ha
    rw [hb] at hb2
    obtain ⟨rfl, rfl⟩ := List.cons.inj hb2
    refine ⟨_, hn, Or.inr ⟨_, _, rfl, ?_⟩⟩
    have hnc : ',' ∉ trim b := by
      intro e
      apply h
      have := hm _ (mem_of_mem_trim b _ e)
      simp [this]
    rw [splitOn_of_not_mem ',' (trim b) hnc]
    simp only [List.map_cons, List.map_nil, List.length_map]
    exact (List.length_filter_le _ _).trans (by simp)
  · exact ⟨_, skillNode_flat t hc, Or.inl ⟨t, rfl⟩⟩

theorem renderTech_normalized (s : JSString) :
    ∃ nodes : List Node,
      (∀ c : Element, renderTechSkillsWithCategories c (.arr (normalizeTechSkills (.str s)))
        = .done { c with children := nodes }) ∧
      ∀ n ∈ nodes, (∃ t, n = skillBox t) ∨
        ∃ label boxes, n = categoryGroupNode label boxes ∧ boxes.length ≤ 1 := by
  have hx : ∀ x ∈ normalizeTechSkills (.str s), ∃ t, x = .str t ∧ ',' ∉ t := by
    intro x hx
    obtain ⟨g, hg, rfl, _⟩ := mem_normalizeTechSkills_str s x hx
    exact ⟨trim g, rfl, fun e => not_mem_of_mem_splitOn ',' s g hg (mem_of_mem_trim g _ e)⟩
  refine ⟨(normalizeTechSkills (.str s)).filterMap skillNode, ?_, ?_⟩
  · intro c
    unfold renderTechSkillsWithCategories fillContainer
    have : asArray (.arr (normalizeTechSkills (.str s))) = normalizeTechSkills (.str s) := by
      simp [asArray, JSValue.truthy]
    rw [this, appendEach_filterMap _ skillNode]
    · simp
    · intro x hxm
      obtain ⟨t, rfl, hc⟩ := hx x hxm
      obtain ⟨n, hn, _⟩ := skillNode_no_comma t hc
      simp [hn]
  · intro n hn
    rw [List.mem_filterMap] at hn
    obtain ⟨x, hxm, hxn⟩ := hn
    obtain ⟨t, rfl, hc⟩ := hx x hxm
    obtain ⟨n2, hn2, hshape⟩ := skillNode_no_comma t hc
    rw [hn2] at hxn
    cases hxn
    exact hshape

/-! ## Theorems: the page controller -/

theorem findElement_replaceElement (id id2 : String) (e : Element)
    (l : List (String × Element)) :
    findElement id2 (replaceElement id e l)
      = (findElement id2 l).map (fun old => if id2 = id then e else old) := by
  induction l with
  | nil => rfl
  | cons x xs ih =>
    obtain ⟨k, old⟩ := x
    by_cases h1 : k = id <;> by_cases h2 : k = id2
    · subst h1; subst h2; simp [findElement, replaceElement]
    · have : ¬ id2 = id := fun e => h2 (h1.trans e.symm)
      simp [findElement, replaceElement, h1, h2, ih, this]
      subst h1
      simp [h2, ih, this]
    · have : ¬ id2 = id := fun e => h1 (h2.trans e)
      simp [findElement, replaceElement, h1, h2, this]
    · simp [findElement, replaceElement, h1, h2, ih]

theorem getElementById_setElement (doc : Document) (id id2 : String) (e : Element) :
    getElementById (setElement doc id e) id2
      = (getElementById doc id2).map (fun old => if id2 = id then e else old) := by
  unfold getElementById setElement
  exact findElement_replaceElement id id2 e doc.elements

theorem toStr_str (s : JSString) : toStr (.str s) = some s := by
  simp [toStr]

theorem renderSkillsGrid_done (c : Element) (d : JSValue)
    (h : ∀ x ∈ (asArray d).filter JSValue.truthy, (toStr x).isSome = true) :
    ∃ ns, renderSkillsGrid c d = .done { c with children := ns } := by
  unfold renderSkillsGrid fillContainer
  rw [appendEach_filterMap _ (fun s => (toStr s).map skillBox)]
  · exact ⟨_, rfl⟩
  · intro x hx
    obtain ⟨t, ht⟩ := Option.isSome_iff_exists.mp (h x hx)
    simp [ht, el, childNodes, Child.toNode, applyAttrs, toStr_str, skillBox]

theorem skillsPage_technicalSkills (cv coreSkills : JSValue) (s : JSString) (doc : Document)
    (e : Element) (nodes : List Node)
    (hcore : getProp cv "coreSkills" = some coreSkills)
    (htech : getProp cv "technicalSkills" = some (.str s))
    (he : getElementById doc "technicalSkills" = some e)
    (hok : getElementById doc "coreSkills" = none ∨
      ∀ x ∈ (asArray (coreSkills.or (.arr []))).filter JSValue.truthy, (toStr x).isSome = true)
    (hn : ∀ c : Element, renderTechSkillsWithCategories c (.arr (normalizeTechSkills (.str s)))
      = .done { c with children := nodes }) :
    ∃ doc1, skillsPage cv doc = .done doc1 ∧
      getElementById doc1 "technicalSkills" = some { e with children := nodes } := by
  have hne : ¬ ("technicalSkills" = "coreSkills") := by decide
  have key : ∀ doc0 : Document, getElementById doc0 "technicalSkills" = some e →
      ∃ doc1, withElement doc0 "technicalSkills"
          (fun e => renderTechSkillsWithCategories e (.arr (normalizeTechSkills (.str s))))
          = .done doc1 ∧
        getElementById doc1 "technicalSkills" = some { e with children := nodes } := by
    intro doc0 h0
    refine ⟨setElement doc0 "technicalSkills" { e with children := nodes }, ?_, ?_⟩
    · simp [withElement, h0, hn]
    · simp [getElementById_setElement, h0]
  unfold skillsPage
  simp only [hcore, htech]
  cases hc : getElementById doc "coreSkills" with
  | none =>
    simp only [withElement, hc, Outcome.andThen]
    exact key doc he
  | some ce =>
    have hall : ∀ x ∈ (asArray (coreSkills.or (.arr []))).filter JSValue.truthy,
        (toStr x).isSome = true := by
      rcases hok with h | h
      · rw [hc] at h; cases h
      · exact h
    obtain ⟨ns, hns⟩ := renderSkillsGrid_done ce (coreSkills.or (.arr [])) hall
    simp only [withElement, hc, hns, Outcome.andThen]
    apply key
    simp [getElementById_setElement, he, hne]

/-- C10: for every string value `s` of `technicalSkills`, every category group
that `renderTechSkillsWithCategories` emits for `normalizeTechSkills(s)` holds
at most one sub-box, every other node being a flat box; and on the skills
page, when the core-skills grid before it renders without a throw (there is no
`coreSkills` element, or every truthy core skill converts to a string), `main`
leaves exactly these nodes in the `technicalSkills` element. -/
theorem skills_page_groups (s : JSString) :
    ∃ nodes : List Node,
      (∀ c : Element, renderTechSkillsWithCategories c (.arr (normalizeTechSkills (.str s)))
        = .done { c with children := nodes }) ∧
      (∀ n ∈ nodes, (∃ t, n = skillBox t) ∨
        ∃ label boxes, n = categoryGroupNode label boxes ∧ boxes.length ≤ 1) ∧
      ∀ (hostMessage : JSString) (res : Response) (doc : Document)
        (fields : List (String × JSValue)) (body e : Element),
        res.ok = true → res.json = .ok (.obj fields) →
        lookupField "technicalSkills" fields = .str s →
        doc.body = some body → doc.dataPage = .str "skills".toList →
        getElementById doc "technicalSkills" = some e →
        (getElementById doc "coreSkills" = none ∨
          ∀ x ∈ (asArray ((lookupField "coreSkills" fields).or (.arr []))).filter JSValue.truthy,
            (toStr x).isSome = true) →
        getElementById (main hostMessage (.ok res) doc) "technicalSkills"
          = some { e with children := nodes } := by
  obtain ⟨nodes, hr, hshape⟩ := renderTech_normalized s
  refine ⟨nodes, hr, hshape, ?_⟩
  intro hostMessage res doc fields body e hok hjson htech hbody hpage he hcore
  obtain ⟨doc1, hd, hg⟩ := skillsPage_technicalSkills (.obj fields) (lookupField "coreSkills" fields)
    s doc e nodes rfl (by simp [getProp, htech]) he hcore hr
  have hrun : runPage (.obj fields) doc = .done doc1 := by
    simp [runPage, getProp, hbody, hpage, strictEqStr, hd]
  simp [main, loadCV, hok, hjson, hrun, hg]

/-- C10 on `"Languages: English, Danish"`, with core skills `["SQL"]` rendered
before: the skills page shows a group `Languages` holding only `English`, and
a separate flat box `Danish`. -/
theorem skills_page_groups_witness :
    renderTechSkillsWithCategories ⟨[], []⟩
        (.arr (normalizeTechSkills (.str "Languages: English, Danish".toList)))
      = .done ⟨[], [ categoryGroupNode "Languages".toList [skillBox "English".toList],
                     skillBox "Danish".toList ]⟩ ∧
    getElementById (main [] (.ok ⟨true, .ok sampleSkillsCv⟩) sampleSkillsDoc) "technicalSkills"
      = some ⟨[], [ categoryGroupNode "Languages".toList [skillBox "English".toList],
                    skillBox "Danish".toList ]⟩ := by
  obtain ⟨nodes, hr, _, hm⟩ := skills_page_groups "Languages: English, Danish".toList
  have h1 : renderTechSkillsWithCategories ⟨[], []⟩
        (.arr (normalizeTechSkills (.str "Languages: English, Danish".toList)))
      = .done ⟨[], [ categoryGroupNode "Languages".toList [skillBox "English".toList],
                     skillBox "Danish".toList ]⟩ := rfl
  have hn : nodes = [ categoryGroupNode "Languages".toList [skillBox "English".toList],
      skillBox "Danish".toList ] := by
    have h2 := hr ⟨[], []⟩
    rw [h1] at h2
    simp only [Outcome.done.injEq, Element.mk.injEq, true_and] at h2
    exact h2.symm
  refine ⟨h1, ?_⟩
  rw [hm [] ⟨true, .ok sampleSkillsCv⟩ sampleSkillsDoc
    [("coreSkills", .arr [.str "SQL".toList]),
     ("technicalSkills", .str "Languages: English, Danish".toList)]
    ⟨[], []⟩ ⟨[], [.text "old".toList]⟩ rfl rfl rfl rfl rfl rfl
    (Or.inr (by
      intro x hx
      have hl : List.filter JSValue.truthy (asArray ((lookupField "coreSkills"
          [("coreSkills", JSValue.arr [.str "SQL".toList]),
           ("technicalSkills", .str "Languages: English, Danish".toList)]).or (.arr [])))
          = [.str "SQL".toList] := rfl
      rw [hl] at hx
      simp only [List.mem_singleton] at hx
      subst hx
      rfl)), hn]

/-- C5 at a string with a second `:`: the text after the second `:` is dropped,
so `"Tools: Git: CLI, Excel"` gives the group `Tools` with the one box `Git`. -/
theorem categorized_second_colon :
    renderTechSkillsWithCategories ⟨[], []⟩ (.arr [.str "Tools: Git: CLI, Excel".toList])
      = .done ⟨[], [categoryGroupNode "Tools".toList [skillBox "Git".toList]]⟩ ∧
    renderTechSkillsWithCategories ⟨[], []⟩ (.arr [.str "Languages: English, Danish".toList])
      = .done ⟨[], [categoryGroupNode "Languages".toList
          [skillBox "English".toList, skillBox "Danish".toList]]⟩ ∧
    renderTechSkillsWithCategories ⟨[], []⟩ (.arr [.str "Excel".toList])
      = .done ⟨[], [skillBox "Excel".toList]⟩ :=
  ⟨rfl, rfl, rfl⟩

theorem findElement_removeElements (id : String) (ids : List String)
    (l : List (String × Element)) :
    findElement id (removeElements ids l)
      = if ids.contains id then none else findElement id l := by
  induction l with
  | nil => cases ids.contains id <;> rfl
  | cons x xs ih =>
    obtain ⟨k, old⟩ := x
    cases hc : ids.contains k with
    | true =>
      have hr : removeElements ids ((k, old) :: xs) = removeElements ids xs := by
        simp only [removeElements, hc, if_true]
      rw [hr, ih]
      cases hi : ids.contains id with
      | true => rfl
      | false =>
        have hne : ¬ k = id := fun e => by rw [e, hi] at hc; cases hc
        simp only [findElement, hne, if_false]
    | false =>
      have hr : removeElements ids ((k, old) :: xs) = (k, old) :: removeElements ids xs := by
        simp only [removeElements, hc, Bool.false_eq_true, if_false]
      rw [hr]
      by_cases hk : k = id
      · subst hk
        simp only [findElement, if_true, hc, Bool.false_eq_true, if_false]
      · simp only [findElement, hk, if_false]
        exact ih

theorem findElement_filter (id : String) (ids : List String) (l : List (String × Element))
    (e : Element) (h : findElement id (removeElements ids l) = some e) :
    findElement id l = some e := by
  rw [findElement_removeElements] at h
  cases hc : ids.contains id with
  | true => rw [hc] at h; cases h
  | false => rw [hc] at h; exact h

/-- C9: when the response to the fetch is not a success, `loadCV` fails with
the reason `Failed to load cv.json`, and all that `main` does, whatever the
page identifier is, is what its `catch` block does: no renderer runs, so every
element by id that is still in the document is as it was and no submit
listener is added, and the error element, which is the `.error-msg` element
or else the body, is shown (`display` is `block`) and holds just the text
`Error loading data: ` followed by the reason.  What was inside the error
element has gone with its old content: with the body as the error element, no
element by id is left. -/
theorem load_failure (hostMessage : JSString) (res : Response) (doc : Document)
    (target : Element) (hok : res.ok = false) (ht : errorTarget doc = some target) :
    loadCV (.ok res) = .error "Failed to load cv.json".toList ∧
    main hostMessage (.ok res) doc = showError "Failed to load cv.json".toList doc ∧
    (∀ id e, getElementById (main hostMessage (.ok res) doc) id = some e →
      getElementById doc id = some e) ∧
    (main hostMessage (.ok res) doc).submitListeners = doc.submitListeners ∧
    (main hostMessage (.ok res) doc).dataPage = doc.dataPage ∧
    errorTarget (main hostMessage (.ok res) doc)
      = some ⟨"block".toList, [.text "Error loading data: Failed to load cv.json".toList]⟩ ∧
    (doc.errorMsg.isSome = true → (main hostMessage (.ok res) doc).body = doc.body ∧
      (main hostMessage (.ok res) doc).elements
        = removeElements doc.errorMsgIds doc.elements) ∧
    (doc.errorMsg = none → (main hostMessage (.ok res) doc).elements = []) ∧
    includes "Error loading data: Failed to load cv.json".toList "Error loading data".toList
      = true := by
  have hl : loadCV (.ok res) = .error "Failed to load cv.json".toList := by
    simp [loadCV, hok]
  have hm : main hostMessage (.ok res) doc = showError "Failed to load cv.json".toList doc := by
    simp [main, hl]
  rw [hm]
  refine ⟨hl, rfl, ?_, ?_, ?_, ?_, ?_, ?_, by rfl⟩
  · intro id e h
    unfold showError getElementById at *
    cases he : doc.errorMsg with
    | some em =>
      simp only [he] at h
      exact findElement_filter id _ _ e h
    | none =>
      cases hb : doc.body with
      | some b => simp [he, hb, findElement] at h
      | none => simpa [he, hb] using h
  · unfold showError
    cases doc.errorMsg <;> cases doc.body <;> rfl
  · unfold showError
    cases doc.errorMsg <;> cases doc.body <;> rfl
  · unfold errorTarget showError at *
    cases he : doc.errorMsg with
    | some e => rfl
    | none =>
      rw [he] at ht
      cases hb : doc.body with
      | some b => simp only [he]; rfl
      | none => rw [hb] at ht; cases ht
  · intro h
    unfold showError
    cases he : doc.errorMsg with
    | some e => exact ⟨rfl, rfl⟩
    | none => rw [he] at h; cases h
  · intro he
    unfold errorTarget showError at *
    rw [he] at ht
    cases hb : doc.body with
    | some b => simp [he]
    | none => rw [hb] at ht; cases ht

/-- C9 on an experience page without an `.error-msg` element: the body shows
the message, nothing is left of the experience list, and no card was built. -/
theorem load_failure_witness :
    main [] (.ok ⟨false, .ok (.obj [])⟩)
        ⟨some ⟨[], []⟩, .str "experience".toList, none, [], [("experience", ⟨[], []⟩)], []⟩
      = ⟨some ⟨"block".toList, [.text "Error loading data: Failed to load cv.json".toList]⟩,
          .str "experience".toList, none, [], [], []⟩ ∧
    getElementById (main [] (.ok ⟨false, .ok (.obj [])⟩)
        ⟨some ⟨[], []⟩, .str "experience".toList, none, [], [("experience", ⟨[], []⟩)], []⟩)
      "experience" = none ∧
    errorTarget (main [] (.ok ⟨false, .ok (.obj [])⟩)
        ⟨some ⟨[], []⟩, .str "experience".toList, none, [], [("experience", ⟨[], []⟩)], []⟩)
      = some ⟨"block".toList, [.text "Error loading data: Failed to load cv.json".toList]⟩ :=
  ⟨rfl, rfl, (load_failure [] ⟨false, .ok (.obj [])⟩
    ⟨some ⟨[], []⟩, .str "experience".toList, none, [], [("experience", ⟨[], []⟩)], []⟩
    ⟨[], []⟩ rfl rfl).2.2.2.2.2.1⟩

/-! ## Theorems: experience cards -/

theorem el_text (tag : String) (attrs : List (String × JSValue)) (s : JSString) :
    el tag attrs [.val (.str s)]
      = (applyAttrs attrs ([], [])).map (fun st => .elem tag st.1 (st.2 ++ [.text s])) := by
  unfold el
  cases applyAttrs attrs ([], []) <;> simp [childNodes, Child.toNode]

theorem el_val_not_string (tag : String) (attrs : List (String × JSValue)) (v : JSValue)
    (h : v.isString = false) : el tag attrs [.val v] = none := by
  unfold el
  cases v <;> cases applyAttrs attrs ([], []) <;>
    simp [childNodes, Child.toNode, JSValue.isString] at h ⊢

theorem el_val_some (tag : String) (attrs : List (String × JSValue)) (v : JSValue) (n : Node)
    (h : el tag attrs [.val v] = some n) :
    ∃ s, v = .str s ∧ el tag attrs [.val (.str s)] = some n := by
  cases hv : v.isString with
  | false => rw [el_val_not_string tag attrs v hv] at h; cases h
  | true =>
    cases v <;> simp [JSValue.isString] at hv
    exact ⟨_, rfl, h⟩

theorem el_li (s : JSString) : el "li" [] [.val (.str s)] = some (.elem "li" [] [.text s]) := by
  simp [el_text, applyAttrs]

theorem appendEach_prefix {α : Type} (f : α → Option Node) (xs : List α) (acc : List Node) :
    ∃ (good : List α) (ms : List Node),
      List.Forall₂ (fun x n => f x = some n) good ms ∧
      ((xs = good ∧ appendEach (fun x => (f x).map some) xs acc = .done (acc ++ ms)) ∨
        ∃ bad rest, xs = good ++ bad :: rest ∧ f bad = none ∧
          appendEach (fun x => (f x).map some) xs acc = .threw (acc ++ ms)) := by
  induction xs generalizing acc with
  | nil => exact ⟨[], [], List.Forall₂.nil, Or.inl ⟨rfl, by simp [appendEach]⟩⟩
  | cons x xs ih =>
    cases hf : f x with
    | none =>
      exact ⟨[], [], List.Forall₂.nil, Or.inr ⟨x, xs, rfl, hf, by simp [appendEach, hf]⟩⟩
    | some n =>
      obtain ⟨good, ms, hall, hcase⟩ := ih (acc ++ [n])
      refine ⟨x :: good, n :: ms, List.Forall₂.cons hf hall, ?_⟩
      rcases hcase with ⟨hx, hd⟩ | ⟨bad, rest, hx, hb, hd⟩
      · exact Or.inl ⟨by rw [hx], by simp [appendEach, hf, hd]⟩
      · exact Or.inr ⟨bad, rest, by rw [hx]; rfl, hb, by simp [appendEach, hf, hd]⟩

theorem buildEach_li_strs (items : List JSString) :
    buildEach (fun h => (el "li" [] [.val h]).map some) (items.map .str)
      = some (items.map (fun t => .elem "li" [] [.text t])) := by
  unfold buildEach
  rw [appendEach_filterMap _ (fun h => el "li" [] [.val h])]
  · simp only [List.nil_append, Option.some.injEq]
    induction items with
    | nil => rfl
    | cons t ts ih => simp [List.filterMap_cons, el_li, ih]
  · intro x hx
    obtain ⟨t, _, rfl⟩ := List.mem_map.mp hx
    simp [el_li]

theorem buildEach_li_some (hs : List JSValue) (lis : List Node)
    (h : buildEach (fun h => (el "li" [] [.val h]).map some) hs = some lis) :
    ∃ items : List JSString, hs = items.map .str ∧
      lis = items.map (fun t => .elem "li" [] [.text t]) := by
  unfold buildEach at h
  obtain ⟨good, ms, hall, hcase⟩ := appendEach_prefix (fun h => el "li" [] [.val h]) hs []
  rcases hcase with ⟨hx, hd⟩ | ⟨bad, rest, _, _, hd⟩
  · rw [hd] at h
    simp only [List.nil_append, Option.some.injEq] at h
    subst h
    subst hx
    clear hd
    induction hall with
    | nil => exact ⟨[], rfl, rfl⟩
    | cons hx _ ih =>
      obtain ⟨items, h1, h2⟩ := ih
      obtain ⟨s, rfl, hn⟩ := el_val_some _ _ _ _ hx
      rw [el_li] at hn
      cases hn
      exact ⟨s :: items, by simp [h1], by simp [h2]⟩
  · rw [hd] at h
    cases h

theorem buildEach_li_bad (hs : List JSValue) (h : ∃ x ∈ hs, x.isString = false) :
    buildEach (fun h => (el "li" [] [.val h]).map some) hs = none := by
  cases hb : buildEach (fun h => (el "li" [] [.val h]).map some) hs with
  | none => rfl
  | some lis =>
    obtain ⟨items, h1, _⟩ := buildEach_li_some hs lis hb
    obtain ⟨x, hx, hs2⟩ := h
    rw [h1] at hx
    obtain ⟨t, _, rfl⟩ := List.mem_map.mp hx
    cases hs2

/-- What `jobBody` gives, case by case. -/
theorem jobBody_cases (job hl description : JSValue)
    (h1 : getProp job "highlights" = some hl) (h2 : getProp job "description" = some description) :
    (∀ items : List JSString, items ≠ [] →
      (asArray hl).filter JSValue.truthy = items.map .str →
      jobBody job = some [itemList items]) ∧
    ((∃ h ∈ (asArray hl).filter JSValue.truthy, h.isString = false) → jobBody job = none) ∧
    ((asArray hl).filter JSValue.truthy = [] → ∀ p, description = .str p → p ≠ [] →
      jobBody job = some [paragraph p]) ∧
    ((asArray hl).filter JSValue.truthy = [] → description.truthy = true →
      description.isString = false → jobBody job = none) ∧
    ((asArray hl).filter JSValue.truthy = [] → description.truthy = false →
      jobBody job = some []) := by
  have hul : el "ul" [] [] = some (.elem "ul" [] []) := by
    simp [el, childNodes, applyAttrs]
  refine ⟨?_, ?_, ?_, ?_, ?_⟩
  · intro items hne hf
    have hlen : (List.map JSValue.str items).length ≠ 0 := by
      simpa [List.length_eq_zero] using hne
    simp only [jobBody, h1, h2, Option.some_bind, hf, if_pos hlen, hul, buildEach_li_strs,
      foldl_appendChild, List.nil_append, itemList]
  · intro hbad
    have hlen : ((asArray hl).filter JSValue.truthy).length ≠ 0 := by
      obtain ⟨x, hx, _⟩ := hbad
      intro h0
      rw [List.length_eq_zero] at h0
      rw [h0] at hx
      cases hx
    simp only [jobBody, h1, h2, Option.some_bind, if_pos hlen, hul, buildEach_li_bad _ hbad,
      Option.none_bind]
  · intro he p hp hne
    subst hp
    have ht : (JSValue.str p).truthy = true := by
      cases p with
      | nil => exact absurd rfl hne
      | cons a l => rfl
    have hlen : ¬ ((asArray hl).filter JSValue.truthy).length ≠ 0 := by simp [he]
    simp only [jobBody, h1, h2, Option.some_bind]
    rw [if_neg hlen, if_pos ht]
    simp [el_text, applyAttrs, paragraph]
  · intro he ht hs
    have hlen : ¬ ((asArray hl).filter JSValue.truthy).length ≠ 0 := by simp [he]
    simp only [jobBody, h1, h2, Option.some_bind]
    rw [if_neg hlen, if_pos ht, el_val_not_string _ _ _ hs]
    rfl
  · intro he ht
    have hlen : ¬ ((asArray hl).filter JSValue.truthy).length ≠ 0 := by simp [he]
    simp only [jobBody, h1, h2, Option.some_bind]
    rw [if_neg hlen, if_neg (by simp [ht])]

/-- What `jobBody` appended to the content block, when it completed. -/
theorem jobBody_some (job : JSValue) (body : List Node) (h : jobBody job = some body) :
    ∃ hl description, getProp job "highlights" = some hl ∧
      getProp job "description" = some description ∧
      ((asArray hl).filter JSValue.truthy ≠ [] →
        ∃ items : List JSString, (asArray hl).filter JSValue.truthy = items.map .str ∧
          body = [itemList items]) ∧
      ((asArray hl).filter JSValue.truthy = [] → description.truthy = true →
        ∃ d, description = .str d ∧ body = [paragraph d]) ∧
      ((asArray hl).filter JSValue.truthy = [] → description.truthy = false → body = []) := by
  cases h1 : getProp job "highlights" with
  | none => simp [jobBody, h1] at h
  | some hl =>
    cases h2 : getProp job "description" with
    | none => simp [jobBody, h1, h2] at h
    | some description =>
      obtain ⟨c1, c2, c3, c4, c5⟩ := jobBody_cases job hl description h1 h2
      refine ⟨hl, description, rfl, rfl, ?_, ?_, ?_⟩
      · intro hne
        by_cases hbad : ∃ x ∈ (asArray hl).filter JSValue.truthy, x.isString = false
        · rw [c2 hbad] at h
          cases h
        · have hall : ∀ x ∈ (asArray hl).filter JSValue.truthy, ∃ t, x = .str t := by
            intro x hx
            cases x <;> first
              | exact ⟨_, rfl⟩
              | exact absurd ⟨_, hx, rfl⟩ hbad
          have hitems : ∃ items : List JSString,
              (asArray hl).filter JSValue.truthy = items.map .str := by
            generalize (asArray hl).filter JSValue.truthy = l at hall
            induction l with
            | nil => exact ⟨[], rfl⟩
            | cons x xs ih =>
              obtain ⟨t, rfl⟩ := hall x (by simp)
              obtain ⟨items, hi⟩ := ih (fun y hy => hall y (by simp [hy]))
              exact ⟨t :: items, by simp [hi]⟩
          obtain ⟨items, hi⟩ := hitems
          have hin : items ≠ [] := by
            intro e
            rw [e] at hi
            exact hne hi
          rw [c1 items hin hi] at h
          cases h
          exact ⟨items, hi, rfl⟩
      · intro he ht
        cases hs : description.isString with
        | false =>
          rw [c4 he ht hs] at h
          cases h
        | true =>
          cases description <;> simp [JSValue.isString] at hs
          rename_i p
          have hp : p ≠ [] := by
            intro e
            rw [e] at ht
            cases ht
          rw [c3 he p rfl hp] at h
          cases h
          exact ⟨p, rfl, rfl⟩
      · intro he ht
        rw [c5 he ht] at h
        cases h
        rfl

theorem jobContentDiv_str (t co l d : JSString) :
    jobContentDiv (.str t) (.str co) (.str l) (.str d) = some (jobContentNode t co l d []) := by
  simp [jobContentDiv, el_text, el, childNodes, Child.toNode, applyAttrs, toStr_str,
    jobContentNode]

theorem jobContentDiv_some (title company location dates : JSValue) (n : Node)
    (h : jobContentDiv title company location dates = some n) :
    ∃ t c l d, title = .str t ∧ company = .str c ∧ location = .str l ∧ dates = .str d ∧
      n = jobContentNode t c l d [] := by
  have h0 := h
  unfold jobContentDiv at h
  simp only [Option.bind_eq_some] at h
  obtain ⟨titleDiv, h1, companySpan, h2, locationSpan, h3, datesSpan, h4, _⟩ := h
  obtain ⟨t, rfl, _⟩ := el_val_some _ _ _ _ h1
  obtain ⟨c, rfl, _⟩ := el_val_some _ _ _ _ h2
  obtain ⟨l, rfl, _⟩ := el_val_some _ _ _ _ h3
  obtain ⟨d, rfl, _⟩ := el_val_some _ _ _ _ h4
  rw [jobContentDiv_str] at h0
  cases h0
  exact ⟨t, c, l, d, rfl, rfl, rfl, rfl, rfl⟩

theorem jobLogoNodes_some (company : JSValue) (ns : List Node)
    (h : jobLogoNodes company = some ns) : ns.length ≤ 1 := by
  unfold jobLogoNodes at h
  simp only [Option.bind_eq_some] at h
  obtain ⟨logo, _, h⟩ := h
  split at h
  · simp only [Option.bind_eq_some] at h
    obtain ⟨_, _, _, _, h⟩ := h
    simp only [Option.some.injEq] at h
    simp [← h]
  · simp only [Option.some.injEq] at h
    simp [← h]

theorem getCompanyLogo_str (co : JSString) :
    getCompanyLogo (.str co) = some .null ∨
      ∃ p, getCompanyLogo (.str co) = some (.str p) := by
  cases h1 : includes co ['E', 'g', 'm', 'o', 'n', 't'] <;>
    cases h2 : includes co ['S', 'A', 'S'] <;>
    cases h3 : includes co ['A', 'r', 'm', 'y'] <;>
    simp [getCompanyLogo, valueIncludes, h1, h2, h3]

theorem jobLogoNodes_str (co : JSString) : ∃ logo, jobLogoNodes (.str co) = some logo := by
  unfold jobLogoNodes
  rcases getCompanyLogo_str co with h | ⟨p, h⟩
  · simp [h, JSValue.truthy]
  · rw [h]
    cases p <;> simp [JSValue.truthy, el, childNodes, Child.toNode, applyAttrs, toStr_str]

/-- The card that the loop body of `renderExperienceCards` appends for a job,
when it completes. -/
theorem jobCard_some (job : JSValue) (card : Node) (h : jobCard job = some card) :
    ∃ (t c l d : JSString) (logo body : List Node),
      jobTitle job = some (.str t) ∧ jobCompany job = some (.str c) ∧
      jobLocation job = some (.str l) ∧ jobDates job = some (.str d) ∧
      jobBody job = some body ∧ jobLogoNodes (.str c) = some logo ∧
      card = .elem "div" [("class", "job-card".toList)] (logo ++ [jobContentNode t c l d body]) := by
  unfold jobCard at h
  simp only [Option.bind_eq_some] at h
  obtain ⟨title, h1, company, h2, location, h3, dates, h4, jobNode, h5, logoNodes, h6,
    contentDiv, h7, body, h8, h9⟩ := h
  obtain ⟨t, c, l, d, rfl, rfl, rfl, rfl, hc⟩ := jobContentDiv_some _ _ _ _ _ h7
  refine ⟨t, c, l, d, logoNodes, body, h1, h2, h3, h4, h8, h6, ?_⟩
  simp [el, childNodes, applyAttrs, toStr_str] at h5
  subst h5 hc
  simp only [Option.some.injEq] at h9
  rw [← h9]
  simp [jobContentNode, foldl_appendChild, Node.appendChild]

/-- The card of a job whose title, company, location and dates are strings
and whose body is built. -/
theorem jobCard_str (job : JSValue) (t co l d : JSString) (logo body : List Node)
    (h1 : jobTitle job = some (.str t)) (h2 : jobCompany job = some (.str co))
    (h3 : jobLocation job = some (.str l)) (h4 : jobDates job = some (.str d))
    (h5 : jobLogoNodes (.str co) = some logo) (h6 : jobBody job = some body) :
    jobCard job = some (.elem "div" [("class", "job-card".toList)]
      (logo ++ [jobContentNode t co l d body])) := by
  simp [jobCard, h1, h2, h3, h4, h5, h6, jobContentDiv_str, el, childNodes, applyAttrs,
    toStr_str, foldl_appendChild, Node.appendChild, jobContentNode]

/-- C7, the claim as stated fails: `sampleBadJob` has two truthy highlights,
the second a number, and gets no card and no list.  The loop body throws at
it, so of the records `sampleJob`, `sampleBadJob`, `sampleJob` only the first
has a card in the container. -/
theorem experience_card_non_string_highlight :
    (∃ hl, getProp sampleBadJob "highlights" = some hl ∧ (truthyEntries hl).length = 2) ∧
    jobCard sampleBadJob = none ∧
    renderExperienceCards ⟨[], [.text "old".toList]⟩ (.arr [sampleJob, sampleBadJob, sampleJob])
      = .threw ⟨[], [sampleJobCard]⟩ :=
  ⟨⟨_, rfl, rfl⟩, rfl, rfl⟩

/-- C7, amended.  (1) The container holds, in order, the cards of the records
up to the first one on which the loop body throws, or of all records when
there is none.  (2) Every card ends with the content block: title element,
meta element (company, location, dates), then one list with an item per truthy
highlight in order when there is a truthy highlight, otherwise one paragraph
with `description` when that is truthy, otherwise nothing.  (3) A record whose
title, company, location and dates are strings gets such a card whenever its
truthy highlights are strings, or it has none and its description is a string
or falsy.  (4) The loop body throws on a record with a truthy highlight that
is not a string, with no truthy highlight and a truthy description that is not
a string, or with a title, company, location or dates that is not a string. -/
theorem experience_card_content :
    (∀ (c : Element) (experience : JSValue),
      ∃ (good : List JSValue) (cards : List Node),
        List.Forall₂ (fun job card => jobCard job = some card) good cards ∧
        ((asArray experience = good ∧
            renderExperienceCards c experience = .done { c with children := cards }) ∨
          ∃ bad rest, asArray experience = good ++ bad :: rest ∧ jobCard bad = none ∧
            renderExperienceCards c experience = .threw { c with children := cards })) ∧
    (∀ (job : JSValue) (card : Node), jobCard job = some card →
      ∃ (t co l d : JSString) (logo body : List Node) (hl description : JSValue),
        jobTitle job = some (.str t) ∧ jobCompany job = some (.str co) ∧
        jobLocation job = some (.str l) ∧ jobDates job = some (.str d) ∧
        getProp job "highlights" = some hl ∧ getProp job "description" = some description ∧
        logo.length ≤ 1 ∧ card = jobCardNode logo t co l d body ∧
        (truthyEntries hl ≠ [] →
          ∃ items : List JSString, truthyEntries hl = items.map .str ∧ body = [itemList items]) ∧
        (truthyEntries hl = [] → description.truthy = true →
          ∃ p, description = .str p ∧ body = [paragraph p]) ∧
        (truthyEntries hl = [] → description.truthy = false → body = [])) ∧
    (∀ (job : JSValue) (t co l d : JSString) (hl description : JSValue),
      jobTitle job = some (.str t) → jobCompany job = some (.str co) →
      jobLocation job = some (.str l) → jobDates job = some (.str d) →
      getProp job "highlights" = some hl → getProp job "description" = some description →
      ∃ logo : List Node, logo.length ≤ 1 ∧
        (∀ items : List JSString, items ≠ [] → truthyEntries hl = items.map .str →
          jobCard job = some (jobCardNode logo t co l d [itemList items])) ∧
        (truthyEntries hl = [] → ∀ p, description = .str p → p ≠ [] →
          jobCard job = some (jobCardNode logo t co l d [paragraph p])) ∧
        (truthyEntries hl = [] → description.truthy = false →
          jobCard job = some (jobCardNode logo t co l d []))) ∧
    (∀ (job hl description : JSValue),
      getProp job "highlights" = some hl → getProp job "description" = some description →
      ((∃ h ∈ truthyEntries hl, h.isString = false) → jobCard job = none) ∧
      (truthyEntries hl = [] → description.truthy = true → description.isString = false →
        jobCard job = none)) ∧
    (∀ (job v : JSValue),
      (jobTitle job = some v ∨ jobCompany job = some v ∨ jobLocation job = some v ∨
        jobDates job = some v) →
      v.isString = false → jobCard job = none) := by
  refine ⟨?_, ?_, ?_, ?_, ?_⟩
  · intro c experience
    obtain ⟨good, ms, hall, hcase⟩ := appendEach_prefix jobCard (asArray experience) []
    refine ⟨good, ms, hall, ?_⟩
    unfold renderExperienceCards fillContainer
    rcases hcase with ⟨hx, hd⟩ | ⟨bad, rest, hx, hb, hd⟩
    · exact Or.inl ⟨hx, by rw [hd]; rfl⟩
    · exact Or.inr ⟨bad, rest, hx, hb, by rw [hd]; rfl⟩
  · intro job card hjc
    obtain ⟨t, co, l, d, logo, body, h1, h2, h3, h4, hb, hlogo, hcard⟩ := jobCard_some job card hjc
    obtain ⟨hl, description, g1, g2, g3, g4, g5⟩ := jobBody_some job body hb
    exact ⟨t, co, l, d, logo, body, hl, description, h1, h2, h3, h4, g1, g2,
      jobLogoNodes_some _ _ hlogo, hcard, g3, g4, g5⟩
  · intro job t co l d hl description h1 h2 h3 h4 g1 g2
    obtain ⟨logo, hlogo⟩ := jobLogoNodes_str co
    obtain ⟨c1, _, c3, _, c5⟩ := jobBody_cases job hl description g1 g2
    refine ⟨logo, jobLogoNodes_some _ _ hlogo, ?_, ?_, ?_⟩
    · intro items hne hi
      exact jobCard_str job t co l d logo _ h1 h2 h3 h4 hlogo (c1 items hne hi)
    · intro he p hp hne
      exact jobCard_str job t co l d logo _ h1 h2 h3 h4 hlogo (c3 he p hp hne)
    · intro he ht
      exact jobCard_str job t co l d logo _ h1 h2 h3 h4 hlogo (c5 he ht)
  · intro job hl description g1 g2
    obtain ⟨_, c2, _, c4, _⟩ := jobBody_cases job hl description g1 g2
    constructor
    · intro hbad
      cases hj : jobCard job with
      | none => rfl
      | some card =>
        obtain ⟨_, _, _, _, _, body, _, _, _, _, hb, _, _⟩ := jobCard_some job card hj
        rw [c2 hbad] at hb
        cases hb
    · intro he ht hs
      cases hj : jobCard job with
      | none => rfl
      | some card =>
        obtain ⟨_, _, _, _, _, body, _, _, _, _, hb, _, _⟩ := jobCard_some job card hj
        rw [c4 he ht hs] at hb
        cases hb
  · intro job v hv hs
    cases hj : jobCard job with
    | none => rfl
    | some card =>
      obtain ⟨t, co, l, d, _, _, h1, h2, h3, h4, _, _, _⟩ := jobCard_some job card hj
      rcases hv with h | h | h | h
      · rw [h1] at h; cases h; cases hs
      · rw [h2] at h; cases h; cases hs
      · rw [h3] at h; cases h; cases hs
      · rw [h4] at h; cases h; cases hs

/-- C7, amended, on four records: `sampleJob` (neither highlights nor
description), `sampleParagraphJob` (description only), `sampleListJob` (two
truthy highlights and a description that is not used) and `sampleBadJob` (a
highlight that is a number). -/
theorem experience_card_content_witness :
    renderExperienceCards ⟨[], [.text "old".toList]⟩
        (.arr [sampleJob, sampleParagraphJob, sampleListJob])
      = .done ⟨[], [ sampleJobCard,
          jobCardNode [] "Engineer".toList "Acme".toList "Pune".toList "2015".toList
            [paragraph "Built pumps.".toList],
          jobCardNode
            [.elem "div" [("class", "job-logo".toList)]
              [.elem "img" [("src", "./SAS.png".toList), ("alt", "SAS Institute".toList)] []]]
            "Lead".toList "SAS Institute".toList [] "2019 – 2021".toList
            [itemList ["Built it".toList, "Ran it".toList]] ]⟩ ∧
    (∃ logo : List Node, logo.length ≤ 1 ∧
      jobCard sampleJob = some (jobCardNode logo "Analyst".toList "Acme".toList "Lyngby".toList
        "2020".toList [])) ∧
    (∃ logo : List Node, logo.length ≤ 1 ∧
      jobCard sampleParagraphJob = some (jobCardNode logo "Engineer".toList "Acme".toList
        "Pune".toList "2015".toList [paragraph "Built pumps.".toList])) ∧
    (∃ logo : List Node, logo.length ≤ 1 ∧
      jobCard sampleListJob = some (jobCardNode logo "Lead".toList "SAS Institute".toList []
        "2019 – 2021".toList [itemList ["Built it".toList, "Ran it".toList]])) ∧
    jobCard sampleBadJob = none := by
  refine ⟨rfl, ?_, ?_, ?_, ?_⟩
  · obtain ⟨logo, hlen, _, _, h0⟩ := experience_card_content.2.2.1 sampleJob
      "Analyst".toList "Acme".toList "Lyngby".toList "2020".toList .undefined .undefined
      rfl rfl rfl rfl rfl rfl
    exact ⟨logo, hlen, h0 rfl rfl⟩
  · obtain ⟨logo, hlen, _, hp, _⟩ := experience_card_content.2.2.1 sampleParagraphJob
      "Engineer".toList "Acme".toList "Pune".toList "2015".toList .undefined
      (.str "Built pumps.".toList) rfl rfl rfl rfl rfl rfl
    exact ⟨logo, hlen, hp rfl _ rfl (by decide)⟩
  · obtain ⟨logo, hlen, hi, _, _⟩ := experience_card_content.2.2.1 sampleListJob
      "Lead".toList "SAS Institute".toList [] "2019 – 2021".toList
      (.arr [.str "Built it".toList, .str [], .str "Ran it".toList]) (.str "unused".toList)
      rfl rfl rfl rfl rfl rfl
    exact ⟨logo, hlen, hi ["Built it".toList, "Ran it".toList] (by decide) rfl⟩
  · exact (experience_card_content.2.2.2.1 sampleBadJob
      (.arr [.str "ok".toList, .num .one]) .undefined rfl rfl).1
      ⟨.num .one, by simp [truthyEntries, asArray, JSValue.truthy, JSNumber.one], rfl⟩

end AppJs
